import Mathlib

/-!
Verification of the ai-toolkit telemetry core against its specification.

This file gives a shallow embedding of the telemetry logger
(`src/toolkit/telemetry.py`, class `TelemetryLogger`) and of the
dashboard-side anomaly detector (`src/dashboard.py`,
`detect_training_issues`), and proves or refutes the frozen claims
about them.

Modelling conventions:
* Python/JSON values are the inductive `Val`; numbers are exact
  rationals (floats are not modelled bit-for-bit; NaN and the two
  infinities are explicit constructors).  Claims only quantify over
  finite numeric data, matching the spec scenarios.
* Python dicts are association lists `PyDict` with dict semantics
  (later assignment overwrites in place, first lookup wins since keys
  stay unique under `aset`).
* Fallible I/O is driven by an explicit `Faults` oracle; an operation
  that would raise returns `Except.error`, and a `try/except` block in
  the source becomes a `match` that converts the error into the
  diagnostic string the source prints.
* File contents are modelled structurally: the JSONL file as the list
  of appended records (`json.dump`/`json.loads` round-trip is taken as
  the identity on records), the CSV file as a header plus rows of
  string cells.
-/

set_option maxHeartbeats 1000000

namespace AiToolkit

/-- A Python/JSON value as it appears in telemetry records. -/
inductive Val where
  | null : Val
  | bool : Bool → Val
  | num : ℚ → Val
  | nan : Val
  | inf : Val
  | ninf : Val
  | str : String → Val
deriving DecidableEq, Repr

/-- Python truthiness of a value (used by `if r.get(...)`). -/
def truthy : Val → Bool
  | .null => false
  | .bool b => b
  | .num q => q ≠ 0
  | .nan => true
  | .inf => true
  | .ninf => true
  | .str s => s ≠ ""

/-- Whether `isinstance(v, (int, float))` holds; Python `bool` is a
subclass of `int`, and NaN/±inf are floats. -/
def isNumber : Val → Bool
  | .bool _ => true
  | .num _ => true
  | .nan => true
  | .inf => true
  | .ninf => true
  | _ => false

/-- Whether the value is NaN or ±infinity (`v != v or abs(v) == inf`). -/
def isNanInf : Val → Bool
  | .nan => true
  | .inf => true
  | .ninf => true
  | _ => false

/-- Errors a modelled Python expression can raise. -/
inductive PyErr where
  | typeError : PyErr
  | valueError : PyErr
deriving DecidableEq, Repr

/-- The numeric reading of a value used by comparisons: finite
rational, NaN, or a signed infinity. -/
inductive PyNum where
  | fin : ℚ → PyNum
  | nan : PyNum
  | inf : PyNum
  | ninf : PyNum
deriving DecidableEq, Repr

/-- Numeric class of a value, `none` when it does not support numeric
comparison (Python `None` and `str` against a number raise). -/
def numClass : Val → Option PyNum
  | .num q => some (.fin q)
  | .bool b => some (.fin (if b then 1 else 0))
  | .nan => some .nan
  | .inf => some .inf
  | .ninf => some .ninf
  | _ => none

/-- Strict order on the numeric reading; every comparison involving
NaN is false, as in IEEE/Python. -/
def ltN : PyNum → PyNum → Bool
  | .nan, _ => false
  | _, .nan => false
  | .ninf, .ninf => false
  | .ninf, _ => true
  | _, .ninf => false
  | .inf, _ => false
  | .fin _, .inf => true
  | .fin a, .fin b => decide (a < b)

/-- Python `a < b` on telemetry values: numbers compare numerically,
strings lexicographically, any other mix raises `TypeError`. -/
def pyLt (a b : Val) : Except PyErr Bool :=
  match a, b with
  | .str x, .str y => .ok (decide (x < y))
  | a, b =>
    match numClass a, numClass b with
    | some x, some y => .ok (ltN x y)
    | _, _ => .error .typeError

/-- Python `a > b` (for these types, `a > b` iff `b < a`). -/
def pyGt (a b : Val) : Except PyErr Bool := pyLt b a

/-- Python `max` over a nonempty list: keep the current maximum,
replacing it when a later element compares greater. -/
def pyMax : List Val → Except PyErr Val
  | [] => .error .valueError
  | x :: xs =>
    xs.foldlM (fun acc y => do
      let b ← pyGt y acc
      pure (if b then y else acc)) x

/-- Finite numeric reading of a value, used where numpy would consume
the list; non-finite and non-numeric values are not converted.
(numpy propagates NaN/inf through means silently; the claims under
verification only quantify over finite numeric metric values, so that
path is mapped to an error here and never reached by a theorem.) -/
def valAsNum : Val → Option ℚ
  | .num q => some q
  | .bool b => some (if b then 1 else 0)
  | _ => none

/-- Convert a whole list of values to rationals, `none` if any fails. -/
def toQList : List Val → Option (List ℚ)
  | [] => some []
  | v :: vs =>
    match valAsNum v, toQList vs with
    | some q, some qs => some (q :: qs)
    | _, _ => none

/-- The string the `csv` module writes for a value: `str(v)`, except
that an explicit `None` is written as the empty string. -/
def toCell : Val → String
  | .null => ""
  | .bool true => "True"
  | .bool false => "False"
  | .num q => toString q
  | .nan => "nan"
  | .inf => "inf"
  | .ninf => "-inf"
  | .str s => s

/-- A Python dict of telemetry data, as an association list. -/
abbrev PyDict := List (String × Val)

/-- A row dict of CSV string cells. -/
abbrev SDict := List (String × String)

section Assoc

variable {α : Type}

/-- `d.get(k)`: first binding of `k`. -/
def aget (r : List (String × α)) (k : String) : Option α :=
  (r.find? (fun p => decide (p.1 = k))).map (·.2)

/-- `d.get(k, dflt)`. -/
def agetD (r : List (String × α)) (k : String) (dflt : α) : α :=
  (aget r k).getD dflt

/-- `d[k] = v`: overwrite in place if the key exists, else append. -/
def aset (r : List (String × α)) (k : String) (v : α) : List (String × α) :=
  if r.any (fun p => decide (p.1 = k)) then
    r.map (fun p => if p.1 = k then (k, v) else p)
  else
    r ++ [(k, v)]

/-- `{**a, **b}`: apply every binding of `b` over `a`, in order. -/
def amerge (a b : List (String × α)) : List (String × α) :=
  b.foldl (fun acc p => aset acc p.1 p.2) a

/-- `list(d.keys())`. -/
def akeys (r : List (String × α)) : List String :=
  r.map (·.1)

end Assoc

/-- `np.mean` of a list of rationals. -/
def qmean (l : List ℚ) : ℚ := l.sum / l.length

/-- Population variance, the square of `np.std` (ddof = 0). -/
def popVar (l : List ℚ) : ℚ :=
  ((l.map (fun q => (q - qmean l) ^ 2)).sum) / l.length

/-!  ## Dashboard-side windowed anomaly detector (`src/dashboard.py`) -/

/-- One advisory issue flagged by `detect_training_issues` (the
formatted message strings are abstracted into tagged payloads). -/
inductive Issue where
  | nanDetected : ℕ → Issue
  | plateau : Issue
  | highGrad : Val → Issue
  | lowGpu : Issue
  | overfit : Issue
deriving DecidableEq, Repr

/-- NaN/Inf check: count recent steps whose `nan_inf_detected` field is
truthy. -/
def nanChk (recent : List PyDict) : List Issue :=
  let c := (recent.filter (fun r => truthy (agetD r "nan_inf_detected" (.bool false)))).length
  if c > 0 then [.nanDetected c] else []

/-- Loss-plateau check over the collected `train_loss` values.  The
source compares `np.std(recent) < 0.01 * abs(np.mean(recent))`; since a
population standard deviation is nonnegative, that comparison is
equivalent to `popVar < (0.01 * |mean|)^2`, which avoids square roots. -/
def plateauChk (losses : List Val) : Except PyErr (List Issue) :=
  if losses.length > 20 then
    let recent := losses.drop (losses.length - 20)
    match toQList recent with
    | none => .error .typeError
    | some qs =>
      let m := qmean qs
      .ok (if popVar qs < (|m| / 100) ^ 2 ∧ m > 1 / 1000 then [.plateau] else [])
  else
    .ok []

/-- Exploding-gradient check: any `grad_norm` above 10 flags the max. -/
def gradChk (gradNorms : List Val) : Except PyErr (List Issue) :=
  if gradNorms.isEmpty then .ok []
  else do
    let mx ← pyMax gradNorms
    let b ← pyGt mx (.num 10)
    pure (if b then [.highGrad mx] else [])

/-- Low-GPU-utilization check: `max(gpu_usage) < 1.0` flags.  Note the
list keeps `null` entries, so the comparison can raise `TypeError`. -/
def gpuChk (gpuUsage : List Val) : Except PyErr (List Issue) :=
  if gpuUsage.isEmpty then .ok []
  else do
    let mx ← pyMax gpuUsage
    let b ← pyLt mx (.num 1)
    pure (if b then [.lowGpu] else [])

/-- Overfitting check: with more than 10 recorded `val_loss` values,
compare the mean of the last 5 against the mean of the 5 before them. -/
def overfitChk (valLosses : List Val) : Except PyErr (List Issue) :=
  if valLosses.length > 10 then
    let recentVal := valLosses.drop (valLosses.length - 5)
    let earlierVal := (valLosses.drop (valLosses.length - 10)).take 5
    if recentVal.length = 5 ∧ earlierVal.length = 5 then
      match toQList recentVal, toQList earlierVal with
      | some r, some e =>
        .ok (if qmean r > qmean e * (11 / 10) then [.overfit] else [])
      | _, _ => .error .typeError
    else
      .ok []
  else
    .ok []

/-- The values kept by `[r.get(key, 0) for r in rs if r.get(key) is
not None]`: actual values of `key`, skipping absent and `None`. -/
def presentVals (rs : List PyDict) (key : String) : List Val :=
  rs.filterMap (fun r =>
    match aget r key with
    | some v => if v = .null then none else some v
    | none => none)

/-- `detect_training_issues` from `src/dashboard.py`: filter to step
records, look at the last 50, and run the five advisory checks in
source order.  An exception raised by any check aborts the whole call
(there is no `try` in the source). -/
def detect_training_issues (data : List PyDict) : Except PyErr (List Issue) :=
  let step_records := data.filter (fun r => decide (aget r "event" = some (.str "step")))
  if step_records.isEmpty then .ok []
  else
    let recent_steps := step_records.drop (step_records.length - 50)
    let i1 := nanChk recent_steps
    do
    let i2 ← plateauChk (presentVals recent_steps "train_loss")
    let i3 ← gradChk (presentVals recent_steps "grad_norm")
    let i4 ← gpuChk (recent_steps.map (fun r => agetD r "gpu_mem_allocated" (.num 0)))
    let i5 ← overfitChk (presentVals step_records "val_loss")
    pure (i1 ++ i2 ++ i3 ++ i4 ++ i5)

/-!  ## Telemetry logger (`src/toolkit/telemetry.py`) -/

/-- Outcome oracle for the fallible I/O operations a single logger call
can perform; `some e` means the corresponding primitive raises with
message `e`. -/
structure Faults where
  jsonlFail : Option String := none
  csvInitFail : Option String := none
  csvReadFail : Option String := none
  csvWriteFail : Option String := none
  tbFail : Option String := none
  wandbFail : Option String := none

/-- The all-succeed oracle. -/
def noFaults : Faults := {}

def jsonl_error (e : String) : String := "[telemetry] Error writing JSONL: " ++ e
def csv_init_error (e : String) : String := "[telemetry] Error initializing CSV: " ++ e
def csv_write_error (e : String) : String := "[telemetry] Error writing CSV: " ++ e
def tb_error (e : String) : String := "[telemetry] Error writing TensorBoard: " ++ e
def wandb_error (e : String) : String := "[telemetry] Error writing W&B: " ++ e
def control_error (e : String) : String := "[telemetry] Error reading control file: " ++ e

/-- `_write_jsonl`: append one record inside a `try`, converting any
failure into a diagnostic; the file is unchanged on failure. -/
def write_jsonl (f : Faults) (file : List PyDict) (record : PyDict) :
    List PyDict × List String :=
  match f.jsonlFail with
  | some e => (file, [jsonl_error e])
  | none => (file ++ [record], [])

/-- Model of the on-disk CSV mirror plus the logger's writer state:
`writerFields` is the `DictWriter`'s fieldnames (`none` when
`csv_writer is None`), `fieldnames` the `csv_fieldnames` set,
`fileHeader`/`fileRows` the file contents, `fileOpen` whether the
handle is open for writing. -/
structure CsvModel where
  writerFields : Option (List String) := none
  fileOpen : Bool := false
  fieldnames : Finset String := ∅
  fileExists : Bool := false
  fileHeader : List String := []
  fileRows : List (List String) := []
deriving DecidableEq

/-- `sorted(...)` over a set of keys. -/
def sortedFields (s : Finset String) : List String :=
  s.sort (· ≤ ·)

/-- `sorted(record.keys())` (dict keys are unique, so the sorted list
of keys is the sorted key set). -/
def sortKeys (r : PyDict) : List String :=
  sortedFields (akeys r).toFinset

/-- The cells `DictWriter.writerow` emits for a row dict: one cell per
fieldname, `restval` (empty) for a missing key. -/
def writeRowS (fields : List String) (row : SDict) : List String :=
  fields.map (fun k => agetD row k "")

/-- The cell a reader sees for column `k` of a stored row. -/
def rowVal (header : List String) (row : List String) (k : String) : String :=
  agetD (header.zip row) k ""

/-- `_init_csv_writer(fieldnames)`: truncate and reopen the CSV file
and write the header, inside its own `try`; on failure the state keeps
the stale handle (now closed) and only a diagnostic is produced. -/
def init_csv_writer (f : Faults) (st : CsvModel) (fields : List String) :
    CsvModel × List String :=
  match f.csvInitFail with
  | some e => (st, [csv_init_error e])
  | none =>
    ({ st with
        writerFields := some fields
        fileOpen := true
        fileExists := true
        fileHeader := fields
        fileRows := [] }, [])

/-- Raw `writerow` on the open handle (one fault flag stands for the
first failing write; a write against a closed handle raises). -/
def csv_writerow_op (f : Faults) (st : CsvModel) (cells : List (List String)) :
    Except String CsvModel :=
  if st.fileOpen = false then .error "I/O operation on closed file"
  else
    match f.csvWriteFail with
    | some e => .error e
    | none => .ok { st with fileRows := st.fileRows ++ cells }

/-- Raw read-back of the existing CSV (`csv.DictReader` over the file):
row dicts keyed by the on-disk header. -/
def csv_read_existing (f : Faults) (st : CsvModel) : Except String (List SDict) :=
  if st.fileExists then
    match f.csvReadFail with
    | some e => .error e
    | none => .ok (st.fileRows.map (fun row => st.fileHeader.zip row))
  else
    .ok []

/-- The final guarded write of `_write_csv`: `if self.csv_writer:
writerow(record); flush()`. -/
def csv_put_record (f : Faults) (st : CsvModel) (srec : SDict) :
    CsvModel × List String :=
  match st.writerFields with
  | none => (st, [])
  | some fields =>
    match csv_writerow_op f st [writeRowS fields srec] with
    | .ok st2 => (st2, [])
    | .error e => (st, [csv_write_error e])

/-- `_write_csv(record)`: lazy header initialization from the first
record, wholesale rewrite with the enlarged sorted header when a new
key appears, then append the record's row; the whole body is wrapped
in a `try` whose handler prints a diagnostic. -/
def write_csv (f : Faults) (st : CsvModel) (record : PyDict) :
    CsvModel × List String :=
  let srec : SDict := record.map (fun p => (p.1, toCell p.2))
  match st.writerFields with
  | none =>
    let fields := sortKeys record
    let (st1, d1) := init_csv_writer f st fields
    let st2 := { st1 with fieldnames := st1.fieldnames ∪ (akeys record).toFinset }
    let (st3, d2) := csv_put_record f st2 srec
    (st3, d1 ++ d2)
  | some _ =>
    let newFields := (akeys record).toFinset \ st.fieldnames
    if newFields = ∅ then
      csv_put_record f st srec
    else
      let stA := { st with fileOpen := false, fieldnames := st.fieldnames ∪ newFields }
      let fields := sortedFields stA.fieldnames
      match csv_read_existing f stA with
      | .error e => (stA, [csv_write_error e])
      | .ok existing =>
        let (st1, d1) := init_csv_writer f stA fields
        match csv_writerow_op f st1 (existing.map (writeRowS fields)) with
        | .error e => (st1, d1 ++ [csv_write_error e])
        | .ok st2 =>
          let (st3, d2) := csv_put_record f st2 srec
          (st3, d1 ++ d2)

/-- `_write_tensorboard`: guarded by the writer's presence, caught by
its own `try`; the external writer's state is outside the core. -/
def write_tensorboard (f : Faults) (tbWriter : Bool) (_record : PyDict) : List String :=
  if tbWriter = false then []
  else
    match f.tbFail with
    | some e => [tb_error e]
    | none => []

/-- `_write_wandb`: analogous to the TensorBoard path. -/
def write_wandb (f : Faults) (wandbRun : Bool) (_record : PyDict) : List String :=
  if wandbRun = false then []
  else
    match f.wandbFail with
    | some e => [wandb_error e]
    | none => []

/-- Host environment for `_get_system_metrics`: the rss sample when
psutil succeeds, CUDA availability, the memory readings when the CUDA
query succeeds. -/
structure SysEnv where
  cpu : Option ℚ := some 100
  cuda : Bool := false
  gpu : Option (ℚ × ℚ) := none

/-- Optional rational as a value (`None` when unavailable). -/
def optNum : Option ℚ → Val
  | some q => .num q
  | none => .null

/-- `_get_system_metrics`: always emits the three fields, with `None`
standing for an absent device or a failed query. -/
def get_system_metrics (env : SysEnv) : PyDict :=
  [("cpu_mem_rss_mb", optNum env.cpu),
   ("gpu_mem_allocated", if env.cuda then optNum (env.gpu.map (·.1)) else .null),
   ("gpu_mem_reserved", if env.cuda then optNum (env.gpu.map (·.2)) else .null)]

/-- `_detect_anomalies(metrics)`: the `nan_inf_detected` flag, true iff
`train_loss` is present, not `None`, and not a finite number. -/
def detect_anomalies (metrics : PyDict) : PyDict :=
  match aget metrics "train_loss" with
  | some v =>
    if v = .null then [("nan_inf_detected", .bool false)]
    else [("nan_inf_detected", .bool (!(isNumber v && !isNanInf v)))]
  | none => [("nan_inf_detected", .bool false)]

/-- State of one logger instance and its run directory. -/
structure World where
  run_name : String := "run"
  jsonl : List PyDict := []
  csv : CsvModel := {}
  enable_tensorboard : Bool := false
  enable_wandb : Bool := false
  tb_writer : Bool := false
  wandb_run : Bool := false

/-- The record assembled by `log_start`. -/
def start_record (now : ℚ) (ts : String) (runName : String)
    (config lora_config model_info training_info : PyDict) : PyDict :=
  amerge (amerge (amerge (amerge
    [("event", .str "start"), ("time", .num now), ("timestamp", .str ts),
     ("run_name", .str runName)]
    config) lora_config) model_info) training_info

/-- The record assembled by `log_step`. -/
def step_record (now : ℚ) (ts : String) (global_step epoch : ℤ)
    (metrics system_metrics anomalies : PyDict) : PyDict :=
  amerge (amerge (amerge
    [("event", .str "step"), ("time", .num now), ("timestamp", .str ts),
     ("global_step", .num (global_step : ℚ)), ("epoch", .num (epoch : ℚ))]
    metrics) system_metrics) anomalies

/-- The record assembled by `log_epoch`. -/
def epoch_record (now : ℚ) (ts : String) (epoch : ℤ) (metrics : PyDict) : PyDict :=
  amerge
    [("event", .str "epoch"), ("time", .num now), ("timestamp", .str ts),
     ("epoch", .num (epoch : ℚ))]
    metrics

/-- The record assembled by `log_checkpoint`. -/
def checkpoint_record (now : ℚ) (ts : String) (global_step : ℤ)
    (checkpoint_path : String) (is_best : Bool) : PyDict :=
  [("event", .str "checkpoint"), ("time", .num now), ("timestamp", .str ts),
   ("global_step", .num (global_step : ℚ)),
   ("checkpoint_path", .str checkpoint_path), ("is_best", .bool is_best)]

/-- The record assembled by `log_eval`: metric keys are namespaced
with an `eval/` marker. -/
def eval_record (now : ℚ) (ts : String) (global_step : ℤ) (metrics : PyDict) : PyDict :=
  amerge
    [("event", .str "eval"), ("time", .num now), ("timestamp", .str ts),
     ("global_step", .num (global_step : ℚ))]
    (metrics.map (fun p => ("eval/" ++ p.1, p.2)))

/-- The record assembled by `log_control_change`. -/
def control_change_record (now : ℚ) (ts : String) (oldV newV : Val)
    (source : String) : PyDict :=
  [("event", .str "control_change"), ("time", .num now), ("timestamp", .str ts),
   ("old", oldV), ("new", newV), ("source", Val.str source)]

/-- Common tail of every `log_*` method: write the record through the
sink (JSONL then CSV) and, when asked, forward to the integrations. -/
def sink_write (f : Faults) (w : World) (record : PyDict) (forward : Bool) :
    Except String (World × List String) := do
  let (j, d1) := write_jsonl f w.jsonl record
  let (c, d2) := write_csv f w.csv record
  let d3 := if forward ∧ w.enable_tensorboard then write_tensorboard f w.tb_writer record else []
  let d4 := if forward ∧ w.enable_wandb then write_wandb f w.wandb_run record else []
  pure ({ w with jsonl := j, csv := c }, d1 ++ d2 ++ d3 ++ d4)

/-- `log_start(config, lora_config, model_info, training_info)`. -/
def log_start (f : Faults) (now : ℚ) (ts : String) (w : World)
    (config lora_config model_info training_info : PyDict) :
    Except String (World × List String) :=
  sink_write f w (start_record now ts w.run_name config lora_config model_info training_info) true

/-- `log_step(global_step, epoch, metrics)`: enrich with system
metrics and the inline anomaly flag, then write. -/
def log_step (f : Faults) (now : ℚ) (ts : String) (w : World)
    (global_step epoch : ℤ) (metrics : PyDict) (env : SysEnv) :
    Except String (World × List String) :=
  sink_write f w
    (step_record now ts global_step epoch metrics (get_system_metrics env)
      (detect_anomalies metrics)) true

/-- `log_epoch(epoch, metrics)`. -/
def log_epoch (f : Faults) (now : ℚ) (ts : String) (w : World)
    (epoch : ℤ) (metrics : PyDict) : Except String (World × List String) :=
  sink_write f w (epoch_record now ts epoch metrics) true

/-- `log_checkpoint(global_step, checkpoint_path, is_best)`: sink
only, no integration forwarding. -/
def log_checkpoint (f : Faults) (now : ℚ) (ts : String) (w : World)
    (global_step : ℤ) (checkpoint_path : String) (is_best : Bool) :
    Except String (World × List String) :=
  sink_write f w (checkpoint_record now ts global_step checkpoint_path is_best) false

/-- `log_eval(global_step, metrics)`. -/
def log_eval (f : Faults) (now : ℚ) (ts : String) (w : World)
    (global_step : ℤ) (metrics : PyDict) : Except String (World × List String) :=
  sink_write f w (eval_record now ts global_step metrics) true

/-- `log_control_change(old_value, new_value, source)`: sink only. -/
def log_control_change (f : Faults) (now : ℚ) (ts : String) (w : World)
    (oldV newV : Val) (source : String) : Except String (World × List String) :=
  sink_write f w (control_change_record now ts oldV newV source) false

/-!  ## Control channel (`check_control_file`) -/

/-- Mutable poll state: `last_control_check` (0 at construction). -/
structure ControlState where
  last_control_check : ℚ := 0
deriving DecidableEq

/-- What the filesystem holds at poll time: `none` when `control.json`
does not exist, `some (.error e)` when opening/parsing raises,
`some (.ok cd)` when it parses to the object `cd`. -/
abbrev ControlFile := Option (Except String PyDict)

/-- Result of one `check_control_file()` poll. -/
structure CtrlResult where
  req : Option PyDict
  st : ControlState
  didRead : Bool
  diags : List String
deriving DecidableEq

/-- Evaluation of `current_time - change_time < 30` for the stored
timestamp value; `none` models the `TypeError` a non-numeric value
raises (caught by the surrounding `except`). -/
def debounce_blocks (now : ℚ) : Val → Option Bool
  | .num q => some (decide (now - q < 30))
  | .bool b => some (decide (now - (if b then 1 else 0) < 30))
  | .nan => some false
  | .inf => some true
  | .ninf => some false
  | _ => none

/-- `check_control_file()`: a 2-second poll floor guards the
filesystem entirely; past it, the file is read and the request is
returned only when at least 30 seconds have passed since the file's
own `timestamp` (missing timestamp defaults to 0). -/
def check_control_file (st : ControlState) (now : ℚ) (file : ControlFile) :
    CtrlResult :=
  if now - st.last_control_check < 2 then
    ⟨none, st, false, []⟩
  else
    let st1 : ControlState := ⟨now⟩
    match file with
    | none => ⟨none, st1, false, []⟩
    | some (.error e) => ⟨none, st1, true, [control_error e]⟩
    | some (.ok cd) =>
      let ts := agetD cd "timestamp" (.num 0)
      match debounce_blocks now ts with
      | none => ⟨none, st1, true, [control_error "TypeError"]⟩
      | some true => ⟨none, st1, true, []⟩
      | some false => ⟨some cd, st1, true, []⟩

/-- One poll in a trace: advance the state and record the poll time
when a filesystem read happened. -/
def control_poll_step (acc : ControlState × List ℚ) (c : ℚ × ControlFile) :
    ControlState × List ℚ :=
  let r := check_control_file acc.1 c.1 c.2
  (r.st, acc.2 ++ if r.didRead then [c.1] else [])

/-- Run a sequence of polls, collecting the times at which a
filesystem read of the control file happened. -/
def run_control_calls (st : ControlState) (calls : List (ℚ × ControlFile)) :
    ControlState × List ℚ :=
  calls.foldl control_poll_step (st, [])

/-!  ## Run scenarios used by the claims -/

/-- A fresh logger state for a new run. -/
def initialWorld : World := {}

/-- Extract the post-state of a `log_*` call (the error branch is
unreachable; see the C1 theorem). -/
def worldAfter (w : World) (r : Except String (World × List String)) : World :=
  match r with
  | .ok p => p.1
  | .error _ => w

/-- A step record as the dashboard reads it back when the training
loop logged only a `train_loss` metric. -/
def mkLossRec (q : ℚ) : PyDict :=
  [("event", .str "step"), ("train_loss", .num q)]

def mkLossRecs (qs : List ℚ) : List PyDict := qs.map mkLossRec

/-- A step record carrying only a `val_loss` metric. -/
def mkValRec (q : ℚ) : PyDict :=
  [("event", .str "step"), ("val_loss", .num q)]

def mkValRecs (qs : List ℚ) : List PyDict := qs.map mkValRec

/-- One `log_step` call of a training loop. -/
structure StepCall where
  now : ℚ := 0
  ts : String := "t"
  gs : ℤ
  ep : ℤ := 0
  metrics : PyDict := []
  env : SysEnv := {}

/-- Replay a sequence of `log_step` calls against a fresh run. -/
def run_log_steps (w : World) (calls : List StepCall) : World :=
  calls.foldl
    (fun w c => worldAfter w (log_step noFaults c.now c.ts w c.gs c.ep c.metrics c.env))
    w

/-- Fold the CSV mirror over a list of records (all writes succeed). -/
def csvAppend (st : CsvModel) (r : PyDict) : CsvModel :=
  (write_csv noFaults st r).1

def csvRun (recs : List PyDict) : CsvModel :=
  recs.foldl csvAppend {}

/-- Cell of row `j`, column `k` of the mirrored CSV. -/
def cellAt (st : CsvModel) (j : ℕ) (k : String) : String :=
  rowVal st.fileHeader (st.fileRows.getD j []) k

/-- The string the CSV holds for key `k` of record `r`: the rendered
value when present, empty otherwise. -/
def strOf (r : PyDict) (k : String) : String :=
  match aget r k with
  | some v => toCell v
  | none => ""

/-- Union of the key sets of a list of records. -/
def keysUnion (recs : List PyDict) : Finset String :=
  recs.foldr (fun r s => (akeys r).toFinset ∪ s) ∅

/-!  ## Association-list (dict) lemmas -/

section AssocLemmas

variable {α : Type}

@[simp] lemma aget_nil (k : String) : aget ([] : List (String × α)) k = none := rfl

lemma aget_cons (p : String × α) (t : List (String × α)) (k : String) :
    aget (p :: t) k = if p.1 = k then some p.2 else aget t k := by
  by_cases h : p.1 = k
  · simp [aget, List.find?_cons_of_pos, h]
  · simp [aget, List.find?_cons_of_neg, h]

@[simp] lemma akeys_nil : akeys ([] : List (String × α)) = [] := rfl

@[simp] lemma akeys_cons (p : String × α) (t : List (String × α)) :
    akeys (p :: t) = p.1 :: akeys t := rfl

lemma akeys_append (l1 l2 : List (String × α)) :
    akeys (l1 ++ l2) = akeys l1 ++ akeys l2 := by
  simp [akeys]

lemma mem_akeys_cons {p : String × α} {t : List (String × α)} {k : String} :
    k ∈ akeys (p :: t) ↔ p.1 = k ∨ k ∈ akeys t := by
  simp [akeys_cons, eq_comm]

lemma aget_eq_none_of_not_mem {r : List (String × α)} {k : String}
    (h : k ∉ akeys r) : aget r k = none := by
  induction r with
  | nil => rfl
  | cons p t ih =>
    have h1 : ¬(p.1 = k) := fun hh => h (mem_akeys_cons.mpr (Or.inl hh))
    have h2 : k ∉ akeys t := fun hh => h (mem_akeys_cons.mpr (Or.inr hh))
    rw [aget_cons, if_neg h1]
    exact ih h2

lemma aget_append_left {l1 l2 : List (String × α)} {k : String} {v : α}
    (h : aget l1 k = some v) : aget (l1 ++ l2) k = some v := by
  induction l1 with
  | nil => simp [aget] at h
  | cons p t ih =>
    rw [aget_cons] at h
    rw [List.cons_append, aget_cons]
    split at h <;> rename_i hp
    · rw [if_pos hp]; exact h
    · rw [if_neg hp]; exact ih h

lemma aget_append_right {l1 l2 : List (String × α)} {k : String}
    (h : k ∉ akeys l1) : aget (l1 ++ l2) k = aget l2 k := by
  induction l1 with
  | nil => rfl
  | cons p t ih =>
    have h1 : ¬(p.1 = k) := fun hh => h (mem_akeys_cons.mpr (Or.inl hh))
    have h2 : k ∉ akeys t := fun hh => h (mem_akeys_cons.mpr (Or.inr hh))
    rw [List.cons_append, aget_cons, if_neg h1]
    exact ih h2

lemma any_key_iff {r : List (String × α)} {k : String} :
    (r.any (fun p => decide (p.1 = k)) = true) ↔ k ∈ akeys r := by
  simp only [List.any_eq_true, decide_eq_true_eq, akeys, List.mem_map]

lemma aget_map_update_self {r : List (String × α)} {k : String} (v : α)
    (hmem : k ∈ akeys r) :
    aget (r.map (fun p => if p.1 = k then (k, v) else p)) k = some v := by
  induction r with
  | nil => simp [akeys] at hmem
  | cons p t ih =>
    by_cases hp : p.1 = k
    · simp [List.map_cons, aget_cons, hp]
    · rcases mem_akeys_cons.mp hmem with h | h
      · exact absurd h hp
      · simpa [List.map_cons, aget_cons, hp] using ih h

lemma aget_map_update_ne {k k1 : String} (h : k1 ≠ k)
    (r : List (String × α)) (v : α) :
    aget (r.map (fun p => if p.1 = k1 then (k1, v) else p)) k = aget r k := by
  induction r with
  | nil => rfl
  | cons p t ih =>
    by_cases hp : p.1 = k1
    · rw [List.map_cons, if_pos hp, aget_cons, aget_cons, if_neg h,
        if_neg (fun hh : p.1 = k => h (hp ▸ hh)), ih]
    · rw [List.map_cons, if_neg hp, aget_cons, aget_cons, ih]

lemma aget_aset_self (r : List (String × α)) (k : String) (v : α) :
    aget (aset r k v) k = some v := by
  unfold aset
  split <;> rename_i hany
  · exact aget_map_update_self v (any_key_iff.mp hany)
  · have hmem : k ∉ akeys r := fun hm => hany (any_key_iff.mpr hm)
    rw [aget_append_right hmem, aget_cons]
    simp

lemma aget_append_single_ne {k k1 : String} (h : k1 ≠ k)
    (r : List (String × α)) (v : α) :
    aget (r ++ [(k1, v)]) k = aget r k := by
  induction r with
  | nil => simp [aget_cons, h]
  | cons p t ih =>
    rw [List.cons_append, aget_cons, aget_cons, ih]

lemma aget_aset_ne {k k1 : String} (h : k1 ≠ k) (r : List (String × α)) (v : α) :
    aget (aset r k1 v) k = aget r k := by
  unfold aset
  split
  · exact aget_map_update_ne h r v
  · exact aget_append_single_ne h r v

lemma akeys_map_update (r : List (String × α)) (k : String) (v : α) :
    akeys (r.map (fun p => if p.1 = k then (k, v) else p)) =
      akeys r := by
  induction r with
  | nil => rfl
  | cons p t ih =>
    by_cases hp : p.1 = k
    · rw [List.map_cons, if_pos hp, akeys_cons, akeys_cons, ih, hp]
    · rw [List.map_cons, if_neg hp, akeys_cons, akeys_cons, ih]

lemma mem_akeys_aset_of_mem {r : List (String × α)} {x : String}
    (h : x ∈ akeys r) (k : String) (v : α) : x ∈ akeys (aset r k v) := by
  unfold aset
  split
  · rw [akeys_map_update]; exact h
  · simp [akeys_append, h]

lemma self_mem_akeys_aset (r : List (String × α)) (k : String) (v : α) :
    k ∈ akeys (aset r k v) := by
  unfold aset
  split <;> rename_i hany
  · rw [akeys_map_update]; exact any_key_iff.mp hany
  · simp [akeys_append]

@[simp] lemma amerge_nil (a : List (String × α)) : amerge a [] = a := rfl

lemma amerge_cons (a : List (String × α)) (p : String × α) (b : List (String × α)) :
    amerge a (p :: b) = amerge (aset a p.1 p.2) b := rfl

lemma aget_amerge_not_mem {b : List (String × α)} {k : String}
    (h : k ∉ akeys b) (a : List (String × α)) :
    aget (amerge a b) k = aget a k := by
  induction b generalizing a with
  | nil => rfl
  | cons p t ih =>
    have h1 : ¬(p.1 = k) := fun hh => h (mem_akeys_cons.mpr (Or.inl hh))
    have h2 : k ∉ akeys t := fun hh => h (mem_akeys_cons.mpr (Or.inr hh))
    rw [amerge_cons, ih h2, aget_aset_ne h1]

lemma mem_akeys_amerge_left {a : List (String × α)} {x : String}
    (h : x ∈ akeys a) (b : List (String × α)) : x ∈ akeys (amerge a b) := by
  induction b generalizing a with
  | nil => exact h
  | cons p t ih => exact ih (mem_akeys_aset_of_mem h p.1 p.2)

lemma mem_akeys_amerge_right {b : List (String × α)} {x : String}
    (h : x ∈ akeys b) (a : List (String × α)) : x ∈ akeys (amerge a b) := by
  induction b generalizing a with
  | nil => simp [akeys] at h
  | cons p t ih =>
    rcases mem_akeys_cons.mp h with h1 | h1
    · rw [amerge_cons]
      exact mem_akeys_amerge_left (h1 ▸ self_mem_akeys_aset a p.1 p.2) t
    · exact ih h1 _

lemma aget_amerge_single (a : List (String × α)) (k : String) (v : α) :
    aget (amerge a [(k, v)]) k = some v := by
  rw [amerge_cons, amerge_nil]
  exact aget_aset_self a k v

end AssocLemmas

/-!  ## Control channel lemmas -/

lemma chain_le_head_mono {s t : ℚ} {l : List ℚ}
    (hst : s ≤ t) (h : List.Chain (· ≤ ·) t l) : List.Chain (· ≤ ·) s l := by
  cases l with
  | nil => exact List.Chain.nil
  | cons a l =>
    rw [List.chain_cons] at h ⊢
    exact ⟨le_trans hst h.1, h.2⟩

/-- A single poll either leaves the state and trace alone (rate
limited), or advances the poll time to the call time, appending it to
the trace exactly when a filesystem read happened. -/
lemma control_poll_step_cases (st : ControlState) (acc : List ℚ)
    (c : ℚ × ControlFile) :
    (c.1 - st.last_control_check < 2 ∧ control_poll_step (st, acc) c = (st, acc))
    ∨ (2 ≤ c.1 - st.last_control_check ∧
        (control_poll_step (st, acc) c = (⟨c.1⟩, acc)
          ∨ control_poll_step (st, acc) c = (⟨c.1⟩, acc ++ [c.1]))) := by
  by_cases hgate : c.1 - st.last_control_check < 2
  · left
    refine ⟨hgate, ?_⟩
    simp [control_poll_step, check_control_file, hgate]
  · right
    refine ⟨not_lt.mp hgate, ?_⟩
    rcases c with ⟨t, file⟩
    rcases file with _ | f
    · left; simp [control_poll_step, check_control_file, hgate]
    · rcases f with e | cd
      · right; simp [control_poll_step, check_control_file, hgate]
      · rcases hdb : debounce_blocks t (agetD cd "timestamp" (.num 0)) with _ | b
        · right; simp [control_poll_step, check_control_file, hgate, hdb]
        · rcases b <;> right <;>
            simp [control_poll_step, check_control_file, hgate, hdb]

/-- Invariant-carrying induction for the poll trace: reads stay at
least 2 seconds apart. -/
lemma run_control_aux (calls : List (ℚ × ControlFile)) :
    ∀ (st : ControlState) (acc : List ℚ),
      List.Chain' (fun a b => a + 2 ≤ b) acc →
      (∀ r ∈ acc, r ≤ st.last_control_check) →
      List.Chain (· ≤ ·) st.last_control_check (calls.map Prod.fst) →
      List.Chain' (fun a b => a + 2 ≤ b)
        (calls.foldl control_poll_step (st, acc)).2 := by
  induction calls with
  | nil => intro st acc hch _ _; exact hch
  | cons c rest ih =>
    intro st acc hch hb hmono
    rw [List.map_cons, List.chain_cons] at hmono
    obtain ⟨hle, hmono2⟩ := hmono
    rw [List.foldl_cons]
    rcases control_poll_step_cases st acc c with ⟨_, hstep⟩ | ⟨h2, hstep | hstep⟩
    · rw [hstep]
      exact ih st acc hch hb (chain_le_head_mono hle hmono2)
    · rw [hstep]
      exact ih ⟨c.1⟩ acc hch (fun r hr => le_trans (hb r hr) hle) hmono2
    · rw [hstep]
      refine ih ⟨c.1⟩ (acc ++ [c.1]) ?_ ?_ hmono2
      · rw [List.chain'_append]
        refine ⟨hch, List.chain'_singleton _, ?_⟩
        intro x hx y hy
        rw [List.head?_cons, Option.mem_some_iff] at hy
        subst hy
        have hxmem : x ∈ acc := List.mem_of_mem_getLast? hx
        linarith [hb x hxmem]
      · intro r hr
        rcases List.mem_append.mp hr with hr | hr
        · linarith [hb r hr, hle]
        · rw [List.mem_singleton] at hr; subst hr; rfl

/-- Claim C2: for a control file with numeric timestamp T, any poll
strictly before T+30 returns no request; a poll at or after T+30 that
clears the 2-second floor returns the parsed object with its setting;
and along any monotone sequence of polls, successive filesystem reads
of the control file are at least 2 seconds apart. -/
theorem c2_control_debounce :
    (∀ (st : ControlState) (now T : ℚ) (cd : PyDict),
        aget cd "timestamp" = some (.num T) → now < T + 30 →
        (check_control_file st now (some (.ok cd))).req = none)
    ∧ (∀ (st : ControlState) (now T : ℚ) (cd : PyDict) (s : String) (V : Val),
        aget cd "timestamp" = some (.num T) → aget cd s = some V →
        T + 30 ≤ now → 2 ≤ now - st.last_control_check →
        ∃ r, (check_control_file st now (some (.ok cd))).req = some r
          ∧ aget r s = some V)
    ∧ (∀ (st : ControlState) (calls : List (ℚ × ControlFile)),
        List.Chain (· ≤ ·) st.last_control_check (calls.map Prod.fst) →
        List.Chain' (fun a b => a + 2 ≤ b) (run_control_calls st calls).2) := by
  refine ⟨?_, ?_, ?_⟩
  · intro st now T cd hts hlt
    unfold check_control_file
    split
    · rfl
    · simp only
      rw [show agetD cd "timestamp" (.num 0) = .num T by rw [agetD, hts]; rfl]
      rw [show debounce_blocks now (.num T) = some true by
        simp [debounce_blocks]; linarith]
  · intro st now T cd s V hts hsv hge hfloor
    refine ⟨cd, ?_, hsv⟩
    unfold check_control_file
    rw [if_neg (by linarith)]
    simp only
    rw [show agetD cd "timestamp" (.num 0) = .num T by rw [agetD, hts]; rfl]
    rw [show debounce_blocks now (.num T) = some false by
      simp [debounce_blocks]; linarith]
  · intro st calls hmono
    exact run_control_aux calls st [] List.chain'_nil
      (fun r hr => absurd hr (List.not_mem_nil r)) hmono

/-- Witness for C2 at a concrete control file written at T = 20 with
setting `log_every = 5`: a poll at t = 40 returns nothing, a poll at
t = 60 returns the object with the setting. -/
theorem c2_witness :
    (check_control_file ⟨0⟩ 40
        (some (.ok [("log_every", Val.num 5), ("timestamp", Val.num 20)]))).req = none
    ∧ ∃ r, (check_control_file ⟨0⟩ 60
        (some (.ok [("log_every", Val.num 5), ("timestamp", Val.num 20)]))).req = some r
        ∧ aget r "log_every" = some (Val.num 5) := by
  constructor
  · exact c2_control_debounce.1 ⟨0⟩ 40 20 _ rfl (by norm_num)
  · exact c2_control_debounce.2.1 ⟨0⟩ 60 20 _ "log_every" (Val.num 5) rfl rfl
      (by norm_num) (by norm_num)

/-- Claim C4 counterexample: a control file that parses as JSON and
carries a setting but no `timestamp` field is returned as an
actionable request (the claim demands `None`): the missing field
defaults to 0, which counts as 30 seconds elapsed. -/
theorem c4_counterexample :
    (check_control_file ⟨0⟩ 1000
        (some (.ok [("log_every", Val.num 50)]))).req
      = some [("log_every", Val.num 50)] := by
  unfold check_control_file
  rw [if_neg (by norm_num : ¬((1000 : ℚ) - (⟨0⟩ : ControlState).last_control_check < 2))]
  show (match debounce_blocks 1000 (agetD [("log_every", Val.num 50)] "timestamp" (.num 0)) with
    | none => (⟨none, ⟨1000⟩, true, [control_error "TypeError"]⟩ : CtrlResult)
    | some true => ⟨none, ⟨1000⟩, true, []⟩
    | some false => ⟨some [("log_every", Val.num 50)], ⟨1000⟩, true, []⟩).req
      = some [("log_every", Val.num 50)]
  rw [show agetD [("log_every", Val.num 50)] "timestamp" (.num 0) = .num 0 from rfl]
  rw [show debounce_blocks 1000 (.num 0) = some false by
    simp [debounce_blocks]; norm_num]

/-- Claim C4 (amended): invalid JSON, and a timestamp whose value
cannot be compared with a number, are treated as no actionable request
and merely reported; but a parsed object with a missing `timestamp`
field is given the default timestamp 0 and is returned as actionable
on any poll past the 2-second floor at a time of at least 30. -/
theorem c4_missing_timestamp_amended :
    (∀ (st : ControlState) (now : ℚ) (e : String),
        2 ≤ now - st.last_control_check →
        (check_control_file st now (some (.error e))).req = none
        ∧ (check_control_file st now (some (.error e))).diags = [control_error e])
    ∧ (∀ (st : ControlState) (now : ℚ) (cd : PyDict),
        aget cd "timestamp" = none → 2 ≤ now - st.last_control_check → 30 ≤ now →
        (check_control_file st now (some (.ok cd))).req = some cd)
    ∧ (∀ (st : ControlState) (now : ℚ) (cd : PyDict) (v : Val),
        aget cd "timestamp" = some v → debounce_blocks now v = none →
        2 ≤ now - st.last_control_check →
        (check_control_file st now (some (.ok cd))).req = none
        ∧ (check_control_file st now (some (.ok cd))).diags
            = [control_error "TypeError"]) := by
  refine ⟨?_, ?_, ?_⟩
  · intro st now e hfloor
    unfold check_control_file
    rw [if_neg (by linarith)]
    exact ⟨rfl, rfl⟩
  · intro st now cd hts hfloor h30
    unfold check_control_file
    rw [if_neg (by linarith)]
    simp only
    rw [show agetD cd "timestamp" (.num 0) = .num 0 by rw [agetD, hts]; rfl]
    rw [show debounce_blocks now (.num 0) = some false by
      simp [debounce_blocks]; linarith]
  · intro st now cd v hts hdb hfloor
    unfold check_control_file
    rw [if_neg (by linarith)]
    simp only
    rw [show agetD cd "timestamp" (.num 0) = v by rw [agetD, hts]; rfl, hdb]
    exact ⟨rfl, rfl⟩

/-- Witness for the amended C4 at concrete inputs: an unparseable file
is reported and ignored, a parseable file without a timestamp is
returned. -/
theorem c4_witness :
    ((check_control_file ⟨0⟩ 100 (some (.error "bad json"))).req = none
      ∧ (check_control_file ⟨0⟩ 100 (some (.error "bad json"))).diags
          = [control_error "bad json"])
    ∧ (check_control_file ⟨0⟩ 100
        (some (.ok [("log_every", Val.num 25)]))).req
        = some [("log_every", Val.num 25)] := by
  constructor
  · exact c4_missing_timestamp_amended.1 ⟨0⟩ 100 "bad json" (by norm_num)
  · exact c4_missing_timestamp_amended.2.1 ⟨0⟩ 100 _ rfl (by norm_num) (by norm_num)

/-- Claim C10: on a host without a CUDA accelerator the logger emits
`gpu_mem_allocated = null` on every step record, and the dashboard's
`detect_training_issues` raises `TypeError` on such a run at the
`max(gpu_usage) < 1.0` comparison instead of returning a list. -/
theorem c10_gpu_null_type_error :
    aget ((worldAfter initialWorld
          (log_step noFaults 0 "t0" initialWorld 1 0 [] {})).jsonl.getD 0 [])
        "gpu_mem_allocated" = some .null
    ∧ detect_training_issues
        ((worldAfter initialWorld
          (log_step noFaults 0 "t0" initialWorld 1 0 [] {})).jsonl)
      = .error .typeError :=
  ⟨rfl, rfl⟩

/-- Claim C5 counterexample: exactly 20 step records with `train_loss`
oscillating within ±0.5 percent of 1.0 do NOT flag a plateau (the
source requires strictly more than 20 recorded losses). -/
theorem c5_counterexample :
    Issue.plateau ∉ [Issue.lowGpu]
    ∧ detect_training_issues (mkLossRecs
        [199/200, 201/200, 199/200, 201/200, 199/200, 201/200, 199/200, 201/200,
         199/200, 201/200, 199/200, 201/200, 199/200, 201/200, 199/200, 201/200,
         199/200, 201/200, 199/200, 201/200])
      = .ok [Issue.lowGpu] :=
  ⟨by decide, rfl⟩

/-!  ## Detector characterization on pure metric runs -/

@[simp] lemma except_bind_ok {ε α β : Type} (a : α) (f : α → Except ε β) :
    (Except.ok a : Except ε α) >>= f = f a := rfl

lemma filterMap_const_none {α β : Type} (l : List α) :
    l.filterMap (fun _ => (none : Option β)) = [] := by
  induction l with
  | nil => rfl
  | cons a t ih => simp [List.filterMap_cons, ih]

@[simp] lemma mkLossRecs_eq (qs : List ℚ) : mkLossRecs qs = qs.map mkLossRec := rfl

@[simp] lemma mkValRecs_eq (qs : List ℚ) : mkValRecs qs = qs.map mkValRec := rfl

lemma filter_step_map (f : ℚ → PyDict)
    (hf : ∀ q, aget (f q) "event" = some (.str "step")) (l : List ℚ) :
    (l.map f).filter (fun r => decide (aget r "event" = some (.str "step")))
      = l.map f :=
  List.filter_eq_self.mpr (by
    intro r hr
    rcases List.mem_map.mp hr with ⟨q, _, rfl⟩
    simp [hf q])

lemma presentVals_map_of_getnone (f : ℚ → PyDict) (key : String)
    (hf : ∀ q, aget (f q) key = none) (l : List ℚ) :
    presentVals (l.map f) key = [] := by
  unfold presentVals
  rw [List.filterMap_map]
  have h1 : ((fun r => match aget r key with
      | some v => if v = Val.null then none else some v
      | none => none) ∘ f) = fun _ => (none : Option Val) :=
    funext fun q => by simp [Function.comp, hf q]
  rw [h1]
  exact filterMap_const_none l

lemma presentVals_map_of_getnum (f : ℚ → PyDict) (key : String)
    (hf : ∀ q, aget (f q) key = some (.num q)) (l : List ℚ) :
    presentVals (l.map f) key = l.map Val.num := by
  unfold presentVals
  rw [List.filterMap_map]
  have h1 : ((fun r => match aget r key with
      | some v => if v = Val.null then none else some v
      | none => none) ∘ f) = fun q => some (Val.num q) :=
    funext fun q => by simp [Function.comp, hf q]
  rw [h1, show (fun q => some (Val.num q)) = some ∘ Val.num from rfl,
    List.filterMap_eq_map]

lemma nanChk_map_of_getnone (f : ℚ → PyDict)
    (hf : ∀ q, aget (f q) "nan_inf_detected" = none) (l : List ℚ) :
    nanChk (l.map f) = [] := by
  have h1 : (l.map f).filter
      (fun r => truthy (agetD r "nan_inf_detected" (.bool false))) = [] := by
    rw [List.filter_eq_nil_iff]
    intro r hr
    rcases List.mem_map.mp hr with ⟨q, _, rfl⟩
    simp [agetD, hf q, truthy]
  simp [nanChk, h1]

lemma toQList_map_num (l : List ℚ) : toQList (l.map Val.num) = some l := by
  induction l with
  | nil => rfl
  | cons a t ih => simp [toQList, valAsNum, ih]

lemma gpu_foldlM_zeros (t : List ℚ) :
    List.foldlM (fun acc y => do
      let b ← pyGt y acc
      pure (if b then y else acc)) (Val.num 0) (t.map (fun _ => Val.num 0))
      = Except.ok (Val.num 0) := by
  induction t with
  | nil => rfl
  | cons a t ih =>
    rw [List.map_cons, List.foldlM_cons]
    exact ih

lemma gpuChk_zeros (l : List ℚ) (h : l ≠ []) :
    gpuChk (l.map (fun _ => Val.num 0)) = .ok [.lowGpu] := by
  cases l with
  | nil => exact absurd rfl h
  | cons a t =>
    rw [List.map_cons]
    show (if (Val.num 0 :: t.map fun _ => Val.num 0).isEmpty then _ else _) = _
    rw [show (Val.num 0 :: t.map fun _ => Val.num 0).isEmpty = false from rfl]
    show (pyMax (Val.num 0 :: t.map fun _ => Val.num 0) >>= _) = _
    rw [show pyMax (Val.num 0 :: t.map fun _ => Val.num 0)
        = Except.ok (Val.num 0) from gpu_foldlM_zeros t]
    rfl

/-- The plateau condition the source tests, on the last 20 recorded
losses (variance form of the std comparison). -/
lemma plateauChk_map_num (l : List ℚ) (h20 : 20 < l.length) :
    plateauChk (l.map Val.num)
      = .ok (if popVar (l.drop (l.length - 20)) <
               (|qmean (l.drop (l.length - 20))| / 100) ^ 2
             ∧ qmean (l.drop (l.length - 20)) > 1 / 1000
          then [.plateau] else []) := by
  unfold plateauChk
  rw [if_pos (by simpa using h20), List.length_map, ← List.map_drop]
  simp only [toQList_map_num]

/-- The overfitting condition the source tests, on more than 10
recorded validation losses. -/
lemma overfitChk_map_num (vs : List ℚ) :
    overfitChk (vs.map Val.num)
      = .ok (if 10 < vs.length
              ∧ qmean (vs.drop (vs.length - 5)) >
                  qmean ((vs.drop (vs.length - 10)).take 5) * (11 / 10)
          then [.overfit] else []) := by
  by_cases h10 : 10 < vs.length
  · unfold overfitChk
    rw [if_pos (by simpa using h10), List.length_map, ← List.map_drop,
      ← List.map_drop, ← List.map_take,
      if_pos (by
        constructor <;> simp [List.length_map, List.length_drop, List.length_take] <;> omega)]
    simp only [toQList_map_num]
    show Except.ok (if qmean (vs.drop (vs.length - 5)) >
        qmean ((vs.drop (vs.length - 10)).take 5) * (11 / 10)
      then [Issue.overfit] else []) = _
    by_cases hc : qmean (vs.drop (vs.length - 5)) >
        qmean ((vs.drop (vs.length - 10)).take 5) * (11 / 10)
    · rw [if_pos hc, if_pos ⟨h10, hc⟩]
    · rw [if_neg hc, if_neg (fun h => hc h.2)]
  · unfold overfitChk
    rw [if_neg (by simpa using h10), if_neg (fun h => h10 h.1)]

/-- Full characterization of the detector on a run whose step records
carry only a `train_loss` metric. -/
lemma detect_mkLossRecs (qs : List ℚ) (h20 : 20 < qs.length) :
    detect_training_issues (mkLossRecs qs)
      = .ok (if popVar (qs.drop (qs.length - 20)) <
               (|qmean (qs.drop (qs.length - 20))| / 100) ^ 2
             ∧ qmean (qs.drop (qs.length - 20)) > 1 / 1000
          then [.plateau, .lowGpu] else [.lowGpu]) := by
  have hne : qs.map mkLossRec ≠ [] := by
    apply List.ne_nil_of_length_pos
    rw [List.length_map]
    omega
  have hne2 : qs.drop (qs.length - 50) ≠ [] := by
    apply List.ne_nil_of_length_pos
    rw [List.length_drop]
    omega
  have hfilter := filter_step_map mkLossRec (fun q => rfl) qs
  have hempty : (qs.map mkLossRec).isEmpty = false := List.isEmpty_eq_false.mpr hne
  have hnan := nanChk_map_of_getnone mkLossRec (fun q => rfl)
    (qs.drop (qs.length - 50))
  have hloss := presentVals_map_of_getnum mkLossRec "train_loss"
    (fun q => rfl) (qs.drop (qs.length - 50))
  have hgrad := presentVals_map_of_getnone mkLossRec "grad_norm"
    (fun q => rfl) (qs.drop (qs.length - 50))
  have hval := presentVals_map_of_getnone mkLossRec "val_loss"
    (fun q => rfl) qs
  have hcomp : ((fun r => agetD r "gpu_mem_allocated" (.num 0)) ∘ mkLossRec)
      = fun _ => Val.num 0 := funext fun q => rfl
  have hgpu := gpuChk_zeros (qs.drop (qs.length - 50)) hne2
  have hlen : 20 < (qs.drop (qs.length - 50)).length := by
    rw [List.length_drop]; omega
  have hplat := plateauChk_map_num (qs.drop (qs.length - 50)) hlen
  have hdrop : (qs.drop (qs.length - 50)).drop ((qs.drop (qs.length - 50)).length - 20)
      = qs.drop (qs.length - 20) := by
    rw [List.length_drop, List.drop_drop]
    congr 1
    omega
  rw [hdrop] at hplat
  unfold detect_training_issues
  simp only [mkLossRecs_eq, hfilter, hempty, Bool.false_eq_true, if_false,
    List.length_map, ← List.map_drop, hnan, hloss, hgrad, hval,
    List.map_map, hcomp, hgpu, hplat,
    show gradChk [] = .ok [] from rfl, show overfitChk [] = .ok [] from rfl,
    except_bind_ok]
  by_cases hcond : popVar (qs.drop (qs.length - 20)) <
      (|qmean (qs.drop (qs.length - 20))| / 100) ^ 2
      ∧ qmean (qs.drop (qs.length - 20)) > 1 / 1000
  · rw [if_pos hcond, if_pos hcond]
    rfl
  · rw [if_neg hcond, if_neg hcond]
    rfl

/-- Full characterization of the detector on a run whose step records
carry only a `val_loss` metric. -/
lemma detect_mkValRecs (vs : List ℚ) (hne0 : vs ≠ []) :
    detect_training_issues (mkValRecs vs)
      = .ok (if 10 < vs.length
              ∧ qmean (vs.drop (vs.length - 5)) >
                  qmean ((vs.drop (vs.length - 10)).take 5) * (11 / 10)
          then [.lowGpu, .overfit] else [.lowGpu]) := by
  have hpos : 0 < vs.length := List.length_pos.mpr hne0
  have hne : vs.map mkValRec ≠ [] := by
    apply List.ne_nil_of_length_pos
    rw [List.length_map]
    exact hpos
  have hne2 : vs.drop (vs.length - 50) ≠ [] := by
    apply List.ne_nil_of_length_pos
    rw [List.length_drop]
    omega
  have hfilter := filter_step_map mkValRec (fun q => rfl) vs
  have hempty : (vs.map mkValRec).isEmpty = false := List.isEmpty_eq_false.mpr hne
  have hnan := nanChk_map_of_getnone mkValRec (fun q => rfl)
    (vs.drop (vs.length - 50))
  have hloss := presentVals_map_of_getnone mkValRec "train_loss"
    (fun q => rfl) (vs.drop (vs.length - 50))
  have hgrad := presentVals_map_of_getnone mkValRec "grad_norm"
    (fun q => rfl) (vs.drop (vs.length - 50))
  have hval := presentVals_map_of_getnum mkValRec "val_loss"
    (fun q => rfl) vs
  have hcomp : ((fun r => agetD r "gpu_mem_allocated" (.num 0)) ∘ mkValRec)
      = fun _ => Val.num 0 := funext fun q => rfl
  have hgpu := gpuChk_zeros (vs.drop (vs.length - 50)) hne2
  have hover := overfitChk_map_num vs
  unfold detect_training_issues
  simp only [mkValRecs_eq, hfilter, hempty, Bool.false_eq_true, if_false,
    List.length_map, ← List.map_drop, hnan, hloss, hgrad, hval,
    List.map_map, hcomp, hgpu, hover,
    show plateauChk [] = .ok [] from rfl, show gradChk [] = .ok [] from rfl,
    except_bind_ok]
  by_cases hcond : 10 < vs.length
      ∧ qmean (vs.drop (vs.length - 5)) >
          qmean ((vs.drop (vs.length - 10)).take 5) * (11 / 10)
  · rw [if_pos hcond, if_pos hcond]
    rfl
  · rw [if_neg hcond, if_neg hcond]
    rfl

/-!  ## Mean and variance bounds for the plateau scenario -/

lemma sum_sq_expand (l : List ℚ) (m : ℚ) :
    (l.map (fun q => (q - m) ^ 2)).sum
      = (l.map (fun q => q ^ 2)).sum - 2 * m * l.sum + l.length * m ^ 2 := by
  induction l with
  | nil => simp
  | cons a t ih =>
    simp only [List.map_cons, List.sum_cons, ih, List.length_cons]
    push_cast
    ring

lemma sum_ab_expand (l : List ℚ) (a b : ℚ) :
    (l.map (fun q => (q - a) * (b - q))).sum
      = (a + b) * l.sum - (l.map (fun q => q ^ 2)).sum - l.length * (a * b) := by
  induction l with
  | nil => simp
  | cons x t ih =>
    simp only [List.map_cons, List.sum_cons, ih, List.length_cons]
    push_cast
    ring

lemma qmean_mem_bounds (l : List ℚ) (a b : ℚ) (hne : l ≠ [])
    (h : ∀ q ∈ l, a ≤ q ∧ q ≤ b) : a ≤ qmean l ∧ qmean l ≤ b := by
  have hpos : 0 < (l.length : ℚ) := by
    exact_mod_cast List.length_pos.mpr hne
  have hub : l.sum ≤ (l.length : ℚ) * b := by
    have := List.sum_le_card_nsmul l b (fun x hx => (h x hx).2)
    rwa [nsmul_eq_mul] at this
  have hlb : (l.length : ℚ) * a ≤ l.sum := by
    have := List.card_nsmul_le_sum l a (fun x hx => (h x hx).1)
    rwa [nsmul_eq_mul] at this
  unfold qmean
  constructor
  · rw [le_div_iff hpos]
    nlinarith
  · rw [div_le_iff hpos]
    nlinarith

/-- Popoviciu-style bound: the population variance of values confined
to `[a, b]` is at most `((b-a)/2)^2`. -/
lemma popVar_le_of_bounds (l : List ℚ) (a b : ℚ) (hne : l ≠ [])
    (h : ∀ q ∈ l, a ≤ q ∧ q ≤ b) :
    popVar l ≤ ((b - a) / 2) ^ 2 := by
  have hpos : 0 < (l.length : ℚ) := by
    exact_mod_cast List.length_pos.mpr hne
  have hm : qmean l * (l.length : ℚ) = l.sum := by
    unfold qmean
    field_simp
  have hexp := sum_sq_expand l (qmean l)
  have hab := sum_ab_expand l a b
  have habnn : 0 ≤ (l.map (fun q => (q - a) * (b - q))).sum := by
    apply List.sum_nonneg
    intro x hx
    rcases List.mem_map.mp hx with ⟨q, hq, rfl⟩
    have h1 := (h q hq).1
    have h2 := (h q hq).2
    nlinarith
  unfold popVar
  rw [div_le_iff hpos, hexp]
  have hs : l.sum = qmean l * (l.length : ℚ) := hm.symm
  rw [hs] at hab ⊢
  nlinarith [hab, habnn, mul_nonneg hpos.le (sq_nonneg (a + b - 2 * qmean l))]

/-- Claim C5 (amended): the plateau flag requires strictly more than
20 recorded losses; whenever that holds and the last 20 losses have
population standard deviation below 1 percent of the mean with mean
above 0.001, the plateau is flagged.  In particular any run of more
than 20 step records oscillating within ±0.5 percent of 1.0 flags a
plateau, and a run of 21 records sweeping between 0.5 and 1.5 does
not. -/
theorem c5_plateau_amended :
    (∀ qs : List ℚ, 20 < qs.length →
        popVar (qs.drop (qs.length - 20)) <
            (|qmean (qs.drop (qs.length - 20))| / 100) ^ 2 →
        1 / 1000 < qmean (qs.drop (qs.length - 20)) →
        ∃ issues, detect_training_issues (mkLossRecs qs) = .ok issues
          ∧ Issue.plateau ∈ issues)
    ∧ (∀ qs : List ℚ, 20 < qs.length → (∀ q ∈ qs, |q - 1| ≤ 1 / 200) →
        detect_training_issues (mkLossRecs qs) = .ok [Issue.plateau, Issue.lowGpu])
    ∧ detect_training_issues (mkLossRecs
        [1/2, 3/2, 1/2, 3/2, 1/2, 3/2, 1/2, 3/2, 1/2, 3/2, 1/2,
         3/2, 1/2, 3/2, 1/2, 3/2, 1/2, 3/2, 1/2, 3/2, 1/2])
      = .ok [Issue.lowGpu] := by
  refine ⟨?_, ?_, ?_⟩
  · intro qs h20 hvar hmean
    refine ⟨[Issue.plateau, Issue.lowGpu], ?_, by simp⟩
    rw [detect_mkLossRecs qs h20, if_pos ⟨hvar, hmean⟩]
  · intro qs h20 hosc
    have hb : ∀ q ∈ qs.drop (qs.length - 20), 199/200 ≤ q ∧ q ≤ 201/200 := by
      intro q hq
      have := hosc q (List.drop_subset _ qs hq)
      rw [abs_le] at this
      constructor <;> linarith [this.1, this.2]
    have hne : qs.drop (qs.length - 20) ≠ [] := by
      apply List.ne_nil_of_length_pos
      rw [List.length_drop]
      omega
    have hmb := qmean_mem_bounds _ _ _ hne hb
    have hvb := popVar_le_of_bounds _ _ _ hne hb
    have hmabs : |qmean (qs.drop (qs.length - 20))| = qmean (qs.drop (qs.length - 20)) :=
      abs_of_pos (by linarith [hmb.1])
    rw [detect_mkLossRecs qs h20, if_pos]
    constructor
    · rw [hmabs]
      nlinarith [hmb.1, hvb]
    · linarith [hmb.1]
  · rw [detect_mkLossRecs _ (by norm_num), if_neg]
    intro hcond
    have h1 : popVar ([3/2, 1/2, 3/2, 1/2, 3/2, 1/2, 3/2, 1/2, 3/2, 1/2,
          3/2, 1/2, 3/2, 1/2, 3/2, 1/2, 3/2, 1/2, 3/2, 1/2] : List ℚ) <
        (|qmean ([3/2, 1/2, 3/2, 1/2, 3/2, 1/2, 3/2, 1/2, 3/2, 1/2,
          3/2, 1/2, 3/2, 1/2, 3/2, 1/2, 3/2, 1/2, 3/2, 1/2] : List ℚ)| / 100) ^ 2 :=
      hcond.1
    norm_num [popVar, qmean, List.sum_cons] at h1

/-- Witness for the amended C5: a run of 21 constant losses of 1.0
flags the plateau. -/
theorem c5_witness :
    detect_training_issues (mkLossRecs (List.replicate 21 1))
      = .ok [Issue.plateau, Issue.lowGpu] :=
  c5_plateau_amended.2.1 (List.replicate 21 1) (by simp)
    (by
      intro q hq
      rw [List.eq_of_mem_replicate hq]
      norm_num)

/-- Claim C6 (amended): the overfitting flag requires strictly more
than 10 recorded `val_loss` values and then compares the mean of the
last 5 against the mean of the 5 preceding them; with 11 values ending
in five 1.2s after 1.0s it flags, with 11 constant values it does not. -/
theorem c6_overfit_amended :
    (∀ vs : List ℚ, 10 < vs.length →
        qmean (vs.drop (vs.length - 5)) >
            qmean ((vs.drop (vs.length - 10)).take 5) * (11 / 10) →
        ∃ issues, detect_training_issues (mkValRecs vs) = .ok issues
          ∧ Issue.overfit ∈ issues)
    ∧ detect_training_issues (mkValRecs [1, 1, 1, 1, 1, 1, 6/5, 6/5, 6/5, 6/5, 6/5])
        = .ok [Issue.lowGpu, Issue.overfit]
    ∧ detect_training_issues (mkValRecs [1, 1, 1, 1, 1, 1, 1, 1, 1, 1, 1])
        = .ok [Issue.lowGpu] := by
  refine ⟨?_, ?_, ?_⟩
  · intro vs h10 hc
    have hne0 : vs ≠ [] := by
      apply List.ne_nil_of_length_pos
      omega
    refine ⟨[Issue.lowGpu, Issue.overfit], ?_, by simp⟩
    rw [detect_mkValRecs vs hne0, if_pos ⟨h10, hc⟩]
  · rw [detect_mkValRecs _ (by simp), if_pos]
    refine ⟨by norm_num, ?_⟩
    show qmean ([6/5, 6/5, 6/5, 6/5, 6/5] : List ℚ) >
      qmean ([1, 1, 1, 1, 1] : List ℚ) * (11 / 10)
    norm_num [qmean, List.sum_cons]
  · rw [detect_mkValRecs _ (by simp), if_neg]
    intro hcond
    have h1 : qmean ([1, 1, 1, 1, 1] : List ℚ) >
        qmean ([1, 1, 1, 1, 1] : List ℚ) * (11 / 10) := hcond.2
    norm_num [qmean, List.sum_cons] at h1

/-- Witness for the amended C6 at the concrete 11-value scenario. -/
theorem c6_witness :
    ∃ issues, detect_training_issues
        (mkValRecs [1, 1, 1, 1, 1, 1, 6/5, 6/5, 6/5, 6/5, 6/5]) = .ok issues
      ∧ Issue.overfit ∈ issues :=
  c6_overfit_amended.1 [1, 1, 1, 1, 1, 1, 6/5, 6/5, 6/5, 6/5, 6/5]
    (by norm_num)
    (by
      show qmean ([6/5, 6/5, 6/5, 6/5, 6/5] : List ℚ) >
        qmean ([1, 1, 1, 1, 1] : List ℚ) * (11 / 10)
      norm_num [qmean, List.sum_cons])

/-- Claim C6 counterexample: exactly 10 recorded `val_loss` values
`[1.0]*5 ++ [1.2]*5` do NOT flag overfitting (the source requires
strictly more than 10 recorded values). -/
theorem c6_counterexample :
    Issue.overfit ∉ [Issue.lowGpu]
    ∧ detect_training_issues (mkValRecs
        [1, 1, 1, 1, 1, 6/5, 6/5, 6/5, 6/5, 6/5])
      = .ok [Issue.lowGpu] :=
  ⟨by decide, rfl⟩

/-!  ## Step-record lemmas for the logger-side claims -/

lemma akeys_get_system_metrics (env : SysEnv) :
    akeys (get_system_metrics env)
      = ["cpu_mem_rss_mb", "gpu_mem_allocated", "gpu_mem_reserved"] := rfl

lemma akeys_detect_anomalies (m : PyDict) :
    akeys (detect_anomalies m) = ["nan_inf_detected"] := by
  unfold detect_anomalies
  rcases aget m "train_loss" with _ | v
  · rfl
  · dsimp only
    split <;> rfl

/-- Keys of `log_step`'s assembled record other than the sampler and
anomaly fields read through to the base-plus-metrics layer. -/
lemma step_record_get_of_base (now : ℚ) (ts : String) (gs ep : ℤ)
    (m : PyDict) (env : SysEnv) (k : String)
    (hk : k ∉ akeys m)
    (hsys : k ∉ (["cpu_mem_rss_mb", "gpu_mem_allocated", "gpu_mem_reserved"] : List String))
    (hanom : k ≠ "nan_inf_detected") :
    aget (step_record now ts gs ep m (get_system_metrics env) (detect_anomalies m)) k
      = aget [("event", .str "step"), ("time", .num now), ("timestamp", .str ts),
              ("global_step", .num (gs : ℚ)), ("epoch", .num (ep : ℚ))] k := by
  unfold step_record
  rw [aget_amerge_not_mem (by rw [akeys_detect_anomalies]; simpa using hanom),
    aget_amerge_not_mem (by rw [akeys_get_system_metrics]; exact hsys),
    aget_amerge_not_mem hk]

/-- Claim C7 counterexample: a step record whose `train_loss` is the
string "bad" (neither NaN nor infinite) still gets
`nan_inf_detected = true`, where the claim demands `false`. -/
theorem c7_counterexample :
    aget ((worldAfter initialWorld
        (log_step noFaults 0 "t" initialWorld 1 0
          [("train_loss", Val.str "bad")] {})).jsonl.getD 0 [])
      "nan_inf_detected" = some (.bool true)
    ∧ isNanInf (Val.str "bad") = false ∧ Val.str "bad" ≠ Val.null :=
  ⟨rfl, rfl, by decide⟩

/-- Claim C7 (amended): the written step record's `nan_inf_detected`
flag is true iff `train_loss` is present, not `None`, and not a finite
number: NaN and ±infinity set it, but so does any non-numeric value;
a finite number like 0.5, an absent key, or a `None` value leave it
false. -/
theorem c7_nan_flag_amended :
    (∀ (now : ℚ) (ts : String) (gs ep : ℤ) (metrics : PyDict) (env : SysEnv),
        ∃ b : Bool,
          aget (step_record now ts gs ep metrics (get_system_metrics env)
              (detect_anomalies metrics)) "nan_inf_detected" = some (.bool b)
          ∧ (b = true ↔ ∃ v, aget metrics "train_loss" = some v ∧ v ≠ .null
              ∧ ¬(isNumber v = true ∧ isNanInf v = false)))
    ∧ aget ((worldAfter initialWorld
        (log_step noFaults 0 "t" initialWorld 1 0
          [("train_loss", Val.nan)] {})).jsonl.getD 0 [])
        "nan_inf_detected" = some (.bool true)
    ∧ aget ((worldAfter initialWorld
        (log_step noFaults 0 "t" initialWorld 1 0
          [("train_loss", Val.num (1/2))] {})).jsonl.getD 0 [])
        "nan_inf_detected" = some (.bool false)
    ∧ aget ((worldAfter initialWorld
        (log_step noFaults 0 "t" initialWorld 1 0 [] {})).jsonl.getD 0 [])
        "nan_inf_detected" = some (.bool false) := by
  refine ⟨?_, rfl, rfl, rfl⟩
  intro now ts gs ep metrics env
  rcases hv : aget metrics "train_loss" with _ | v
  · refine ⟨false, ?_, ?_⟩
    · have hanom : detect_anomalies metrics = [("nan_inf_detected", .bool false)] := by
        unfold detect_anomalies
        rw [hv]
      unfold step_record
      rw [hanom]
      exact aget_amerge_single _ _ _
    · refine ⟨fun h => absurd h Bool.false_ne_true, ?_⟩
      rintro ⟨w, hw, -, -⟩
      exact Option.noConfusion hw
  · by_cases hnull : v = Val.null
    · refine ⟨false, ?_, ?_⟩
      · have hanom : detect_anomalies metrics = [("nan_inf_detected", .bool false)] := by
          unfold detect_anomalies
          rw [hv]
          dsimp only
          rw [if_pos hnull]
        unfold step_record
        rw [hanom]
        exact aget_amerge_single _ _ _
      · simp only [Bool.false_eq_true, false_iff, not_exists]
        intro w
        rintro ⟨hw, hne, -⟩
        rw [Option.some_inj] at hw
        exact hne (hw ▸ hnull)
    · refine ⟨!(isNumber v && !isNanInf v), ?_, ?_⟩
      · have hanom : detect_anomalies metrics
            = [("nan_inf_detected", .bool (!(isNumber v && !isNanInf v)))] := by
          unfold detect_anomalies
          rw [hv]
          dsimp only
          rw [if_neg hnull]
        unfold step_record
        rw [hanom]
        exact aget_amerge_single _ _ _
      · have hbool : (!(isNumber v && !isNanInf v)) = true
            ↔ ¬(isNumber v = true ∧ isNanInf v = false) := by
          cases h1 : isNumber v <;> cases h2 : isNanInf v <;> simp
        rw [hbool]
        constructor
        · intro hb
          exact ⟨v, rfl, hnull, hb⟩
        · rintro ⟨w, hw, -, hcon⟩
          rw [Option.some_inj] at hw
          subst hw
          exact hcon


/-- Witness for the amended C7 at a concrete NaN metric. -/
theorem c7_witness :
    ∃ b : Bool,
      aget (step_record 0 "t" 1 0 [("train_loss", Val.nan)]
          (get_system_metrics {}) (detect_anomalies [("train_loss", Val.nan)]))
        "nan_inf_detected" = some (.bool b)
      ∧ (b = true ↔ ∃ v, aget [("train_loss", Val.nan)] "train_loss" = some v
          ∧ v ≠ .null ∧ ¬(isNumber v = true ∧ isNanInf v = false)) :=
  c7_nan_flag_amended.1 0 "t" 1 0 [("train_loss", Val.nan)] {}

/-!  ## Claims C8 and C9: JSONL round-trip and step-sequence replay -/

lemma log_step_jsonl (now : ℚ) (ts : String) (w : World) (gs ep : ℤ)
    (m : PyDict) (env : SysEnv) :
    (worldAfter w (log_step noFaults now ts w gs ep m env)).jsonl
      = w.jsonl ++ [step_record now ts gs ep m (get_system_metrics env)
          (detect_anomalies m)] := rfl

lemma run_log_steps_snoc (w : World) (l : List StepCall) (c : StepCall) :
    run_log_steps w (l ++ [c])
      = worldAfter (run_log_steps w l)
          (log_step noFaults c.now c.ts (run_log_steps w l) c.gs c.ep
            c.metrics c.env) := by
  unfold run_log_steps
  rw [List.foldl_append, List.foldl_cons, List.foldl_nil]

lemma step_record_event_gs (now : ℚ) (ts : String) (gs ep : ℤ)
    (m : PyDict) (env : SysEnv)
    (he : "event" ∉ akeys m) (hg : "global_step" ∉ akeys m) :
    aget (step_record now ts gs ep m (get_system_metrics env)
        (detect_anomalies m)) "event" = some (.str "step")
    ∧ aget (step_record now ts gs ep m (get_system_metrics env)
        (detect_anomalies m)) "global_step" = some (.num (gs : ℚ)) := by
  constructor
  · rw [step_record_get_of_base now ts gs ep m env "event" he (by decide) (by decide)]
    rfl
  · rw [step_record_get_of_base now ts gs ep m env "global_step" hg (by decide) (by decide)]
    rfl

/-- Claim C9 counterexample: a single `log_step` call whose metrics
mapping carries an `event` key overwrites the record's `event` field,
so the read-back filtered to step events loses the call: the claim's
hypotheses hold but the replayed sequence is empty, not `[1]`. -/
theorem c9_counterexample :
    List.Chain' (· < ·)
      (([⟨0, "t", 1, 0, [("event", Val.str "epoch")], {}⟩] : List StepCall).map
        (fun c => c.gs))
    ∧ ((run_log_steps initialWorld
          [⟨0, "t", 1, 0, [("event", Val.str "epoch")], {}⟩]).jsonl.filter
        (fun r => decide (aget r "event" = some (.str "step")))).map
        (fun r => aget r "global_step") = []
    ∧ ([] : List (Option Val))
        ≠ ([⟨0, "t", 1, 0, [("event", Val.str "epoch")], {}⟩] : List StepCall).map
            (fun c => some (Val.num (c.gs : ℚ))) := by
  refine ⟨by simp, rfl, by simp⟩

/-- Claim C9 (amended): for any sequence of `log_step` calls with
monotonically increasing `global_step` whose metrics mappings do not
themselves carry `event` or `global_step` keys, the JSONL file read
back and filtered to step events replays exactly the `global_step`
sequence of the calls, in order. -/
theorem c9_step_sequence_amended :
    ∀ calls : List StepCall,
      (∀ c ∈ calls, "event" ∉ akeys c.metrics ∧ "global_step" ∉ akeys c.metrics) →
      List.Chain' (· < ·) (calls.map (fun c => c.gs)) →
      ((run_log_steps initialWorld calls).jsonl.filter
          (fun r => decide (aget r "event" = some (.str "step")))).map
        (fun r => aget r "global_step")
      = calls.map (fun c => some (Val.num (c.gs : ℚ))) := by
  intro calls
  induction calls using List.reverseRecOn with
  | nil => intro _ _; rfl
  | append_singleton l c ih =>
    intro hmet hchain
    have hml : ∀ x ∈ l, "event" ∉ akeys x.metrics ∧ "global_step" ∉ akeys x.metrics :=
      fun x hx => hmet x (List.mem_append.mpr (Or.inl hx))
    have hc := hmet c (List.mem_append.mpr (Or.inr (List.mem_singleton_self c)))
    have hchainl : List.Chain' (· < ·) (l.map (fun c => c.gs)) := by
      rw [List.map_append] at hchain
      exact (List.chain'_append.mp hchain).1
    have hev := (step_record_event_gs c.now c.ts c.gs c.ep c.metrics c.env hc.1 hc.2).1
    have hgs := (step_record_event_gs c.now c.ts c.gs c.ep c.metrics c.env hc.1 hc.2).2
    rw [run_log_steps_snoc, log_step_jsonl, List.filter_append, List.map_append,
      List.map_append, ih hml hchainl]
    congr 1
    simp [List.filter_cons, hev, hgs]

/-- Witness for the amended C9: two clean calls replay `[1, 2]`. -/
theorem c9_witness :
    ((run_log_steps initialWorld
        [⟨0, "t", 1, 0, [], {}⟩, ⟨1, "t", 2, 0, [], {}⟩]).jsonl.filter
        (fun r => decide (aget r "event" = some (.str "step")))).map
      (fun r => aget r "global_step")
      = ([⟨0, "t", 1, 0, [], {}⟩, ⟨1, "t", 2, 0, [], {}⟩] : List StepCall).map
          (fun c => some (Val.num (c.gs : ℚ))) :=
  c9_step_sequence_amended _
    (by
      intro c hc
      fin_cases hc <;> exact ⟨by simp [akeys], by simp [akeys]⟩)
    (by
      show List.Chain' (· < ·) [(1 : ℤ), 2]
      simp)

/-- Claim C8 counterexample: `log_eval` namespaces metric keys, so the
appended record does not contain the field name that was passed: the
key `loss` is absent, only `eval/loss` is present. -/
theorem c8_counterexample :
    (worldAfter initialWorld
        (log_eval noFaults 0 "t" initialWorld 1 [("loss", Val.num 1)])).jsonl.length = 1
    ∧ aget ((worldAfter initialWorld
        (log_eval noFaults 0 "t" initialWorld 1 [("loss", Val.num 1)])).jsonl.getD 0 [])
        "loss" = none
    ∧ aget ((worldAfter initialWorld
        (log_eval noFaults 0 "t" initialWorld 1 [("loss", Val.num 1)])).jsonl.getD 0 [])
        "eval/loss" = some (Val.num 1) :=
  ⟨rfl, rfl, rfl⟩

/-- Claim C8 (amended): every `log_*` call (when the write succeeds)
appends exactly one record to the JSONL file; that record always
carries the keys `event`, `time` and `timestamp`, the explicitly
passed scalar fields, and the keys of every passed mapping — except
that `log_eval` stores each metric key `k` under `eval/k` instead of
`k`. -/
theorem c8_roundtrip_amended :
    (∀ (now : ℚ) (ts : String) (w : World) (cfg lora minfo tinfo : PyDict),
        (∃ w2 d, log_start noFaults now ts w cfg lora minfo tinfo = .ok (w2, d)
          ∧ w2.jsonl = w.jsonl ++ [start_record now ts w.run_name cfg lora minfo tinfo])
        ∧ "event" ∈ akeys (start_record now ts w.run_name cfg lora minfo tinfo)
        ∧ "time" ∈ akeys (start_record now ts w.run_name cfg lora minfo tinfo)
        ∧ "timestamp" ∈ akeys (start_record now ts w.run_name cfg lora minfo tinfo)
        ∧ (∀ k, (k ∈ akeys cfg ∨ k ∈ akeys lora ∨ k ∈ akeys minfo ∨ k ∈ akeys tinfo) →
            k ∈ akeys (start_record now ts w.run_name cfg lora minfo tinfo)))
    ∧ (∀ (now : ℚ) (ts : String) (w : World) (gs ep : ℤ) (metrics : PyDict) (env : SysEnv),
        (∃ w2 d, log_step noFaults now ts w gs ep metrics env = .ok (w2, d)
          ∧ w2.jsonl = w.jsonl ++ [step_record now ts gs ep metrics
              (get_system_metrics env) (detect_anomalies metrics)])
        ∧ "event" ∈ akeys (step_record now ts gs ep metrics
            (get_system_metrics env) (detect_anomalies metrics))
        ∧ "time" ∈ akeys (step_record now ts gs ep metrics
            (get_system_metrics env) (detect_anomalies metrics))
        ∧ "timestamp" ∈ akeys (step_record now ts gs ep metrics
            (get_system_metrics env) (detect_anomalies metrics))
        ∧ "global_step" ∈ akeys (step_record now ts gs ep metrics
            (get_system_metrics env) (detect_anomalies metrics))
        ∧ "epoch" ∈ akeys (step_record now ts gs ep metrics
            (get_system_metrics env) (detect_anomalies metrics))
        ∧ (∀ k, k ∈ akeys metrics →
            k ∈ akeys (step_record now ts gs ep metrics
              (get_system_metrics env) (detect_anomalies metrics))))
    ∧ (∀ (now : ℚ) (ts : String) (w : World) (ep : ℤ) (metrics : PyDict),
        (∃ w2 d, log_epoch noFaults now ts w ep metrics = .ok (w2, d)
          ∧ w2.jsonl = w.jsonl ++ [epoch_record now ts ep metrics])
        ∧ "event" ∈ akeys (epoch_record now ts ep metrics)
        ∧ "time" ∈ akeys (epoch_record now ts ep metrics)
        ∧ "timestamp" ∈ akeys (epoch_record now ts ep metrics)
        ∧ "epoch" ∈ akeys (epoch_record now ts ep metrics)
        ∧ (∀ k, k ∈ akeys metrics → k ∈ akeys (epoch_record now ts ep metrics)))
    ∧ (∀ (now : ℚ) (ts : String) (w : World) (gs : ℤ) (cp : String) (ib : Bool),
        (∃ w2 d, log_checkpoint noFaults now ts w gs cp ib = .ok (w2, d)
          ∧ w2.jsonl = w.jsonl ++ [checkpoint_record now ts gs cp ib])
        ∧ akeys (checkpoint_record now ts gs cp ib)
            = ["event", "time", "timestamp", "global_step", "checkpoint_path", "is_best"])
    ∧ (∀ (now : ℚ) (ts : String) (w : World) (gs : ℤ) (metrics : PyDict),
        (∃ w2 d, log_eval noFaults now ts w gs metrics = .ok (w2, d)
          ∧ w2.jsonl = w.jsonl ++ [eval_record now ts gs metrics])
        ∧ "event" ∈ akeys (eval_record now ts gs metrics)
        ∧ "time" ∈ akeys (eval_record now ts gs metrics)
        ∧ "timestamp" ∈ akeys (eval_record now ts gs metrics)
        ∧ "global_step" ∈ akeys (eval_record now ts gs metrics)
        ∧ (∀ k, k ∈ akeys metrics →
            ("eval/" ++ k) ∈ akeys (eval_record now ts gs metrics)))
    ∧ (∀ (now : ℚ) (ts : String) (w : World) (ov nv : Val) (src : String),
        (∃ w2 d, log_control_change noFaults now ts w ov nv src = .ok (w2, d)
          ∧ w2.jsonl = w.jsonl ++ [control_change_record now ts ov nv src])
        ∧ akeys (control_change_record now ts ov nv src)
            = ["event", "time", "timestamp", "old", "new", "source"]) := by
  refine ⟨?_, ?_, ?_, ?_, ?_, ?_⟩
  · intro now ts w cfg lora minfo tinfo
    refine ⟨⟨_, _, rfl, rfl⟩, ?_, ?_, ?_, ?_⟩ <;> unfold start_record
    · exact mem_akeys_amerge_left (mem_akeys_amerge_left (mem_akeys_amerge_left
        (mem_akeys_amerge_left (by simp [akeys]) _) _) _) _
    · exact mem_akeys_amerge_left (mem_akeys_amerge_left (mem_akeys_amerge_left
        (mem_akeys_amerge_left (by simp [akeys]) _) _) _) _
    · exact mem_akeys_amerge_left (mem_akeys_amerge_left (mem_akeys_amerge_left
        (mem_akeys_amerge_left (by simp [akeys]) _) _) _) _
    · intro k hk
      rcases hk with hk | hk | hk | hk
      · exact mem_akeys_amerge_left (mem_akeys_amerge_left (mem_akeys_amerge_left
          (mem_akeys_amerge_right hk _) _) _) _
      · exact mem_akeys_amerge_left (mem_akeys_amerge_left
          (mem_akeys_amerge_right hk _) _) _
      · exact mem_akeys_amerge_left (mem_akeys_amerge_right hk _) _
      · exact mem_akeys_amerge_right hk _
  · intro now ts w gs ep metrics env
    refine ⟨⟨_, _, rfl, rfl⟩, ?_, ?_, ?_, ?_, ?_, ?_⟩ <;> unfold step_record
    · exact mem_akeys_amerge_left (mem_akeys_amerge_left
        (mem_akeys_amerge_left (by simp [akeys]) _) _) _
    · exact mem_akeys_amerge_left (mem_akeys_amerge_left
        (mem_akeys_amerge_left (by simp [akeys]) _) _) _
    · exact mem_akeys_amerge_left (mem_akeys_amerge_left
        (mem_akeys_amerge_left (by simp [akeys]) _) _) _
    · exact mem_akeys_amerge_left (mem_akeys_amerge_left
        (mem_akeys_amerge_left (by simp [akeys]) _) _) _
    · exact mem_akeys_amerge_left (mem_akeys_amerge_left
        (mem_akeys_amerge_left (by simp [akeys]) _) _) _
    · intro k hk
      exact mem_akeys_amerge_left (mem_akeys_amerge_left
        (mem_akeys_amerge_right hk _) _) _
  · intro now ts w ep metrics
    refine ⟨⟨_, _, rfl, rfl⟩, ?_, ?_, ?_, ?_, ?_⟩ <;> unfold epoch_record
    · exact mem_akeys_amerge_left (by simp [akeys]) _
    · exact mem_akeys_amerge_left (by simp [akeys]) _
    · exact mem_akeys_amerge_left (by simp [akeys]) _
    · exact mem_akeys_amerge_left (by simp [akeys]) _
    · intro k hk
      exact mem_akeys_amerge_right hk _
  · intro now ts w gs cp ib
    exact ⟨⟨_, _, rfl, rfl⟩, rfl⟩
  · intro now ts w gs metrics
    refine ⟨⟨_, _, rfl, rfl⟩, ?_, ?_, ?_, ?_, ?_⟩ <;> unfold eval_record
    · exact mem_akeys_amerge_left (by simp [akeys]) _
    · exact mem_akeys_amerge_left (by simp [akeys]) _
    · exact mem_akeys_amerge_left (by simp [akeys]) _
    · exact mem_akeys_amerge_left (by simp [akeys]) _
    · intro k hk
      refine mem_akeys_amerge_right ?_ _
      rcases List.mem_map.mp hk with ⟨p, hp, rfl⟩
      exact List.mem_map.mpr ⟨("eval/" ++ p.1, p.2), List.mem_map.mpr ⟨p, hp, rfl⟩, rfl⟩
  · intro now ts w ov nv src
    exact ⟨⟨_, _, rfl, rfl⟩, rfl⟩

/-- Witness for the amended C8: a concrete `log_eval` call appends one
record whose keys include the namespaced metric. -/
theorem c8_witness :
    "eval/loss" ∈ akeys (eval_record 0 "t" 1 [("loss", Val.num 1)]) :=
  (c8_roundtrip_amended.2.2.2.2.1 0 "t" initialWorld 1 [("loss", Val.num 1)]).2.2.2.2.2
    "loss" (by decide)

/-!  ## Claim C3: CSV schema growth -/

lemma rowVal_nil (hdr : List String) (k : String) : rowVal hdr [] k = "" := by
  unfold rowVal
  rw [List.zip_nil_right]
  rfl

lemma zip_map_self (l : List String) (f : String → String) :
    l.zip (l.map f) = l.map (fun a => (a, f a)) := by
  induction l with
  | nil => rfl
  | cons a t ih => simp [List.zip_cons_cons, ih]

lemma aget_map_pair (l : List String) (f : String → String) (k : String) :
    aget (l.map (fun a => (a, f a))) k = if k ∈ l then some (f k) else none := by
  induction l with
  | nil => rfl
  | cons a t ih =>
    rw [List.map_cons, aget_cons]
    by_cases ha : a = k
    · subst ha
      simp
    · rw [if_neg ha, ih]
      by_cases hm : k ∈ t
      · rw [if_pos hm, if_pos (List.mem_cons_of_mem a hm)]
      · rw [if_neg hm, if_neg (by
          intro hc
          rcases List.mem_cons.mp hc with hc | hc
          · exact ha hc.symm
          · exact hm hc)]

lemma rowVal_writeRowS (hdr : List String) (srec : SDict) (k : String) :
    rowVal hdr (writeRowS hdr srec) k
      = if k ∈ hdr then agetD srec k "" else "" := by
  unfold rowVal writeRowS agetD
  rw [zip_map_self, aget_map_pair]
  by_cases hm : k ∈ hdr
  · rw [if_pos hm, if_pos hm]
    rfl
  · rw [if_neg hm, if_neg hm]
    rfl

lemma aget_map_toCell (r : PyDict) (k : String) :
    aget (r.map (fun p => (p.1, toCell p.2))) k = (aget r k).map toCell := by
  induction r with
  | nil => rfl
  | cons p t ih =>
    rw [List.map_cons, aget_cons, aget_cons]
    by_cases hp : p.1 = k
    · rw [if_pos hp, if_pos hp]
      rfl
    · rw [if_neg hp, if_neg hp, ih]

lemma agetD_srec (r : PyDict) (k : String) :
    agetD (r.map (fun p => (p.1, toCell p.2))) k "" = strOf r k := by
  unfold agetD strOf
  rw [aget_map_toCell]
  rcases aget r k with _ | v <;> rfl

lemma strOf_empty_of_not_mem {r : PyDict} {k : String} (h : k ∉ akeys r) :
    strOf r k = "" := by
  unfold strOf
  rw [aget_eq_none_of_not_mem h]

@[simp] lemma keysUnion_nil : keysUnion [] = ∅ := rfl

lemma keysUnion_cons (r : PyDict) (t : List PyDict) :
    keysUnion (r :: t) = (akeys r).toFinset ∪ keysUnion t := rfl

lemma keysUnion_append (l1 l2 : List PyDict) :
    keysUnion (l1 ++ l2) = keysUnion l1 ∪ keysUnion l2 := by
  induction l1 with
  | nil => simp
  | cons r t ih =>
    rw [List.cons_append, keysUnion_cons, keysUnion_cons, ih, Finset.union_assoc]

lemma mem_keysUnion_of_mem {recs : List PyDict} {rec : PyDict} {k : String}
    (hr : rec ∈ recs) (hk : k ∈ akeys rec) : k ∈ keysUnion recs := by
  induction recs with
  | nil => cases hr
  | cons r t ih =>
    rw [keysUnion_cons, Finset.mem_union]
    rcases List.mem_cons.mp hr with hr | hr
    · exact Or.inl (by rw [hr] at hk; exact List.mem_toFinset.mpr hk)
    · exact Or.inr (ih hr)

lemma mem_sortedFields {s : Finset String} {k : String} :
    k ∈ sortedFields s ↔ k ∈ s := Finset.mem_sort _

lemma csvRun_snoc (recs : List PyDict) (r : PyDict) :
    csvRun (recs ++ [r]) = csvAppend (csvRun recs) r := by
  unfold csvRun
  rw [List.foldl_append, List.foldl_cons, List.foldl_nil]

/-- First record: the writer is initialized with the sorted keys of
the record, and the single row is the record's cells. -/
lemma csvAppend_start (st : CsvModel) (r : PyDict) (h : st.writerFields = none) :
    csvAppend st r
      = { writerFields := some (sortKeys r), fileOpen := true,
          fieldnames := st.fieldnames ∪ (akeys r).toFinset, fileExists := true,
          fileHeader := sortKeys r,
          fileRows := [writeRowS (sortKeys r) (r.map (fun p => (p.1, toCell p.2)))] } := by
  unfold csvAppend write_csv
  rw [h]
  rfl

/-- Known keys: the record's row is appended under the current header. -/
lemma csvAppend_nogrow (st : CsvModel) (r : PyDict) (H : List String)
    (hw : st.writerFields = some H) (hopen : st.fileOpen = true)
    (hsub : (akeys r).toFinset \ st.fieldnames = ∅) :
    csvAppend st r
      = { st with fileRows :=
            st.fileRows ++ [writeRowS H (r.map (fun p => (p.1, toCell p.2)))] } := by
  unfold csvAppend write_csv
  rw [hw]
  dsimp only
  rw [if_pos hsub]
  unfold csv_put_record csv_writerow_op
  rw [hw, hopen]
  rfl

/-- New keys: the file is rewritten under the enlarged sorted header,
old rows reflowed, then the record's row appended. -/
lemma csvAppend_grow (st : CsvModel) (r : PyDict) (H : List String)
    (hw : st.writerFields = some H) (hex : st.fileExists = true)
    (hgrow : (akeys r).toFinset \ st.fieldnames ≠ ∅) :
    csvAppend st r
      = { writerFields := some (sortedFields (st.fieldnames ∪ (akeys r).toFinset)),
          fileOpen := true,
          fieldnames := st.fieldnames ∪ (akeys r).toFinset, fileExists := true,
          fileHeader := sortedFields (st.fieldnames ∪ (akeys r).toFinset),
          fileRows :=
            st.fileRows.map (fun row =>
              writeRowS (sortedFields (st.fieldnames ∪ (akeys r).toFinset))
                (st.fileHeader.zip row))
            ++ [writeRowS (sortedFields (st.fieldnames ∪ (akeys r).toFinset))
                (r.map (fun p => (p.1, toCell p.2)))] } := by
  unfold csvAppend write_csv
  rw [hw]
  dsimp only
  rw [if_neg hgrow]
  unfold csv_read_existing init_csv_writer csv_writerow_op csv_put_record
  dsimp only
  rw [hex]
  dsimp only [noFaults]
  simp only [Finset.union_sdiff_self_eq_union, List.nil_append, if_true,
    List.map_map]
  rfl

lemma getD_default {α : Type} (l : List α) (n : ℕ) (d : α)
    (h : l.length ≤ n) : l.getD n d = d := by
  rw [List.getD_eq_getElem?_getD, List.getElem?_eq_none h]
  rfl

/-- Running invariant of the CSV mirror over a run with no I/O
failure: the writer is live, the tracked field set is exactly the
union of all keys seen, the on-disk header is its sorted form, there
is one row per record, and every cell holds the rendered value the
corresponding record had for that column (empty when absent). -/
lemma csvRun_invariant (recs : List PyDict) (hne : recs ≠ []) :
    (csvRun recs).writerFields = some (sortedFields (keysUnion recs))
    ∧ (csvRun recs).fileOpen = true
    ∧ (csvRun recs).fileExists = true
    ∧ (csvRun recs).fieldnames = keysUnion recs
    ∧ (csvRun recs).fileHeader = sortedFields (keysUnion recs)
    ∧ (csvRun recs).fileRows.length = recs.length
    ∧ (∀ j k, rowVal (csvRun recs).fileHeader ((csvRun recs).fileRows.getD j []) k
        = strOf (recs.getD j []) k) := by
  induction recs using List.reverseRecOn with
  | nil => exact absurd rfl hne
  | append_singleton l r ih =>
    have hU : keysUnion (l ++ [r]) = keysUnion l ∪ (akeys r).toFinset := by
      rw [keysUnion_append, keysUnion_cons, keysUnion_nil, Finset.union_empty]
    by_cases hl : l = []
    · subst hl
      rw [csvRun_snoc, csvAppend_start _ r rfl]
      have hU0 : keysUnion ([] ++ [r]) = (akeys r).toFinset := by
        rw [hU, keysUnion_nil, Finset.empty_union]
      refine ⟨by rw [hU0]; rfl, rfl, rfl, by rw [hU0]; exact Finset.empty_union _,
        by rw [hU0]; rfl, rfl, ?_⟩
      intro j k
      match j with
      | 0 =>
        show rowVal (sortKeys r) (writeRowS (sortKeys r) _) k = strOf r k
        rw [rowVal_writeRowS, agetD_srec]
        by_cases hm : k ∈ sortKeys r
        · rw [if_pos hm]
        · rw [if_neg hm]
          refine (strOf_empty_of_not_mem ?_).symm
          intro hk
          exact hm ((mem_sortedFields (s := (akeys r).toFinset)).mpr
            (List.mem_toFinset.mpr hk))
      | j + 1 =>
        show rowVal (sortKeys r) ([writeRowS (sortKeys r) _].getD (j+1) []) k
          = strOf (([] ++ [r]).getD (j+1) []) k
        rw [getD_default _ _ _ (by simp), getD_default _ _ _ (by simp), rowVal_nil]
        rfl
    · obtain ⟨hwf, hopen, hex, hfn, hhdr, hlen, hrows⟩ := ih hl
      by_cases hgrow : (akeys r).toFinset \ (csvRun l).fieldnames = ∅
      · have hsub : (akeys r).toFinset ⊆ keysUnion l := by
          rw [← hfn]
          exact Finset.sdiff_eq_empty_iff_subset.mp hgrow
        have hUeq : keysUnion (l ++ [r]) = keysUnion l := by
          rw [hU]
          exact Finset.union_eq_left.mpr hsub
        rw [csvRun_snoc, csvAppend_nogrow _ r (sortedFields (keysUnion l)) hwf hopen hgrow]
        refine ⟨by rw [hUeq]; exact hwf, hopen, hex, by rw [hUeq]; exact hfn,
          by rw [hUeq]; exact hhdr, by simp [hlen], ?_⟩
        intro j k
        show rowVal (csvRun l).fileHeader
          (((csvRun l).fileRows ++ [writeRowS (sortedFields (keysUnion l))
            (r.map (fun p => (p.1, toCell p.2)))]).getD j []) k
          = strOf ((l ++ [r]).getD j []) k
        rcases lt_trichotomy j l.length with hj | hj | hj
        · rw [List.getD_append _ _ _ j (by rw [hlen]; exact hj),
            List.getD_append _ _ _ j hj]
          exact hrows j k
        · subst hj
          rw [List.getD_append_right ((csvRun l).fileRows) _ _ _ (le_of_eq hlen),
            List.getD_append_right l [r] _ _ (le_refl _), hlen, Nat.sub_self]
          show rowVal (csvRun l).fileHeader
            (writeRowS (sortedFields (keysUnion l)) (r.map (fun p => (p.1, toCell p.2)))) k
            = strOf r k
          rw [hhdr, rowVal_writeRowS, agetD_srec]
          by_cases hm : k ∈ sortedFields (keysUnion l)
          · rw [if_pos hm]
          · rw [if_neg hm]
            refine (strOf_empty_of_not_mem ?_).symm
            intro hk
            exact hm (mem_sortedFields.mpr (hsub (List.mem_toFinset.mpr hk)))
        · rw [getD_default _ _ _ (by simp [hlen]; omega),
            getD_default _ _ _ (by simp; omega), rowVal_nil]
          rfl
      · have hU2 : (csvRun l).fieldnames ∪ (akeys r).toFinset = keysUnion (l ++ [r]) := by
          rw [hfn, hU]
        rw [csvRun_snoc, csvAppend_grow _ r (sortedFields (keysUnion l)) hwf hex hgrow]
        refine ⟨by rw [hU2], rfl, rfl, hU2, by rw [hU2], by simp [hlen], ?_⟩
        intro j k
        dsimp only
        rw [hU2]
        rcases lt_trichotomy j l.length with hj | hj | hj
        · have hj1 : j < ((csvRun l).fileRows.map (fun row =>
              writeRowS (sortedFields (keysUnion (l ++ [r])))
                ((csvRun l).fileHeader.zip row))).length := by
            rw [List.length_map, hlen]
            exact hj
          have hj2 : j < (csvRun l).fileRows.length := by rw [hlen]; exact hj
          rw [List.getD_append _ _ _ _ hj1, List.getD_append _ _ _ _ hj,
            List.getD_eq_getElem _ _ hj1, List.getElem_map]
          rw [← List.getD_eq_getElem ((csvRun l).fileRows) ([] : List String) hj2,
            rowVal_writeRowS]
          have hmem : l.getD j [] ∈ l := by
            rw [List.getD_eq_getElem _ _ hj]
            exact List.getElem_mem hj
          by_cases hm : k ∈ sortedFields (keysUnion (l ++ [r]))
          · rw [if_pos hm]
            show rowVal (csvRun l).fileHeader ((csvRun l).fileRows.getD j []) k
              = strOf (l.getD j []) k
            exact hrows j k
          · rw [if_neg hm]
            refine (strOf_empty_of_not_mem ?_).symm
            intro hk
            refine hm (mem_sortedFields.mpr ?_)
            rw [hU]
            exact Finset.mem_union_left _ (mem_keysUnion_of_mem hmem hk)
        · subst hj
          have hlm : ((csvRun l).fileRows.map (fun row =>
              writeRowS (sortedFields (keysUnion (l ++ [r])))
                ((csvRun l).fileHeader.zip row))).length = l.length := by
            rw [List.length_map, hlen]
          rw [List.getD_append_right _ _ _ _ (le_of_eq hlm),
            List.getD_append_right l [r] _ _ (le_refl _), hlm, Nat.sub_self]
          show rowVal (sortedFields (keysUnion (l ++ [r])))
            (writeRowS (sortedFields (keysUnion (l ++ [r])))
              (r.map (fun p => (p.1, toCell p.2)))) k
            = strOf r k
          rw [rowVal_writeRowS, agetD_srec]
          by_cases hm : k ∈ sortedFields (keysUnion (l ++ [r]))
          · rw [if_pos hm]
          · rw [if_neg hm]
            refine (strOf_empty_of_not_mem ?_).symm
            intro hk
            refine hm (mem_sortedFields.mpr ?_)
            rw [hU]
            exact Finset.mem_union_right _ (List.mem_toFinset.mpr hk)
        · rw [getD_default _ _ _ (by simp [hlen]; omega),
            getD_default _ _ _ (by simp; omega), rowVal_nil]
          rfl

lemma aget_isSome_of_mem {α : Type} {r : List (String × α)} {k : String}
    (h : k ∈ akeys r) : ∃ v, aget r k = some v := by
  induction r with
  | nil => simp [akeys] at h
  | cons p t ih =>
    rw [aget_cons]
    by_cases hp : p.1 = k
    · exact ⟨p.2, if_pos hp⟩
    · rw [if_neg hp]
      rcases mem_akeys_cons.mp h with h1 | h1
      · exact absurd h1 hp
      · exact ih h1

/-- Claim C3: per-record CSV schema growth.  After appending records
1..i (0-based: `recs.take (i+1)`) where record i introduces a key `k`
absent from all earlier records, the header is the sorted union of all
keys seen so far (hence contains `k`), rows before i hold the empty
string in column `k`, and row i holds the rendered value of record i.
Moreover, after any prefix of the run the header contains every key of
every record seen so far. -/
theorem c3_csv_schema_growth :
    (∀ (recs : List PyDict) (i : ℕ) (k : String),
        i < recs.length →
        k ∈ akeys (recs.getD i []) →
        (∀ j, j < i → k ∉ akeys (recs.getD j [])) →
        k ∈ (csvRun (recs.take (i + 1))).fileHeader
        ∧ (csvRun (recs.take (i + 1))).fileHeader
            = sortedFields (keysUnion (recs.take (i + 1)))
        ∧ (csvRun (recs.take (i + 1))).fileRows.length = i + 1
        ∧ (∀ j, j < i → cellAt (csvRun (recs.take (i + 1))) j k = "")
        ∧ (∃ v, aget (recs.getD i []) k = some v
            ∧ cellAt (csvRun (recs.take (i + 1))) i k = toCell v))
    ∧ (∀ (recs : List PyDict) (n : ℕ) (rec : PyDict) (k : String),
        rec ∈ recs.take n → k ∈ akeys rec →
        k ∈ (csvRun (recs.take n)).fileHeader) := by
  constructor
  · intro recs i k hi hk hnot
    have hlen1 : (recs.take (i + 1)).length = i + 1 := by
      rw [List.length_take]
      omega
    have hne : recs.take (i + 1) ≠ [] := by
      apply List.ne_nil_of_length_pos
      omega
    obtain ⟨hwf, hopen, hex, hfn, hhdr, hlen, hrows⟩ := csvRun_invariant _ hne
    have hgetD : ∀ j, j ≤ i → (recs.take (i + 1)).getD j [] = recs.getD j [] := by
      intro j hj
      have hj1 : j < (recs.take (i + 1)).length := by omega
      have hj2 : j < recs.length := by omega
      rw [List.getD_eq_getElem _ _ hj1, List.getD_eq_getElem _ _ hj2,
        List.getElem_take]
    have hmem_i : (recs.take (i + 1)).getD i [] ∈ recs.take (i + 1) := by
      rw [List.getD_eq_getElem _ _ (by omega)]
      exact List.getElem_mem _
    have hki : k ∈ akeys ((recs.take (i + 1)).getD i []) := by
      rw [hgetD i (le_refl i)]
      exact hk
    refine ⟨?_, hhdr, by rw [hlen, hlen1], ?_, ?_⟩
    · rw [hhdr]
      exact mem_sortedFields.mpr (mem_keysUnion_of_mem hmem_i hki)
    · intro j hj
      unfold cellAt
      rw [hrows j k, hgetD j (le_of_lt hj)]
      exact strOf_empty_of_not_mem (hnot j hj)
    · obtain ⟨v, hv⟩ := aget_isSome_of_mem hk
      refine ⟨v, hv, ?_⟩
      unfold cellAt
      rw [hrows i k, hgetD i (le_refl i)]
      unfold strOf
      rw [hv]
  · intro recs n rec k hr hk
    obtain ⟨hwf, hopen, hex, hfn, hhdr, hlen, hrows⟩ :=
      csvRun_invariant _ (List.ne_nil_of_mem hr)
    rw [hhdr]
    exact mem_sortedFields.mpr (mem_keysUnion_of_mem hr hk)

/-- Witness for C3 on a two-record run where the second record
introduces the new key `b`: the first row is backfilled empty, the
second row carries the value. -/
theorem c3_witness :
    "b" ∈ (csvRun ([[("a", Val.num 1)], [("a", Val.num 2), ("b", Val.str "x")]].take 2)).fileHeader
    ∧ (csvRun ([[("a", Val.num 1)], [("a", Val.num 2), ("b", Val.str "x")]].take 2)).fileHeader
        = sortedFields (keysUnion ([[("a", Val.num 1)], [("a", Val.num 2), ("b", Val.str "x")]].take 2))
    ∧ (csvRun ([[("a", Val.num 1)], [("a", Val.num 2), ("b", Val.str "x")]].take 2)).fileRows.length = 2
    ∧ (∀ j, j < 1 → cellAt (csvRun ([[("a", Val.num 1)], [("a", Val.num 2), ("b", Val.str "x")]].take 2)) j "b" = "")
    ∧ (∃ v, aget ([[("a", Val.num 1)], [("a", Val.num 2), ("b", Val.str "x")]].getD 1 []) "b" = some v
        ∧ cellAt (csvRun ([[("a", Val.num 1)], [("a", Val.num 2), ("b", Val.str "x")]].take 2)) 1 "b" = toCell v) :=
  c3_csv_schema_growth.1 [[("a", Val.num 1)], [("a", Val.num 2), ("b", Val.str "x")]] 1 "b"
    (by decide) (by decide) (by decide)

/-!  ## Claim C1: the logging calls never raise -/

lemma write_jsonl_fail {f : Faults} {m : String} (h : f.jsonlFail = some m)
    (file : List PyDict) (record : PyDict) :
    write_jsonl f file record = (file, [jsonl_error m]) := by
  unfold write_jsonl
  rw [h]

lemma write_csv_init_fail {f : Faults} {m : String} (h : f.csvInitFail = some m)
    {st : CsvModel} (hw : st.writerFields = none) (r : PyDict) :
    (write_csv f st r).2 = [csv_init_error m] := by
  unfold write_csv
  rw [hw]
  dsimp only
  unfold init_csv_writer
  rw [h]
  dsimp only
  unfold csv_put_record
  rw [show ({ st with fieldnames := st.fieldnames ∪ (akeys r).toFinset } : CsvModel).writerFields
      = st.writerFields from rfl, hw]
  rfl

lemma write_tensorboard_fail {f : Faults} {m : String} (h : f.tbFail = some m)
    (record : PyDict) :
    write_tensorboard f true record = [tb_error m] := by
  unfold write_tensorboard
  rw [h]
  rfl

/-- Claim C1: every public logging call returns normally for every
record content and every I/O outcome; a failing JSONL append, a
failing CSV initialization, or a failing enabled TensorBoard write is
converted into a diagnostic message, leaving the call's result an
ordinary return (for a failed JSONL append the file is unchanged). -/
theorem c1_log_calls_never_raise :
    ∀ (f : Faults) (now : ℚ) (ts : String) (w : World) (env : SysEnv)
      (cfg lora minfo tinfo metrics : PyDict) (gs ep : ℤ)
      (cp src : String) (ib : Bool) (ov nv : Val),
      (log_start f now ts w cfg lora minfo tinfo).isOk = true
      ∧ (log_step f now ts w gs ep metrics env).isOk = true
      ∧ (log_epoch f now ts w ep metrics).isOk = true
      ∧ (log_checkpoint f now ts w gs cp ib).isOk = true
      ∧ (log_eval f now ts w gs metrics).isOk = true
      ∧ (log_control_change f now ts w ov nv src).isOk = true
      ∧ (∀ m, f.jsonlFail = some m →
          ∃ w2 d, log_step f now ts w gs ep metrics env = .ok (w2, d)
            ∧ w2.jsonl = w.jsonl ∧ jsonl_error m ∈ d)
      ∧ (∀ m, f.csvInitFail = some m → w.csv.writerFields = none →
          ∃ w2 d, log_step f now ts w gs ep metrics env = .ok (w2, d)
            ∧ csv_init_error m ∈ d)
      ∧ (∀ m, f.tbFail = some m → w.enable_tensorboard = true → w.tb_writer = true →
          ∃ w2 d, log_step f now ts w gs ep metrics env = .ok (w2, d)
            ∧ tb_error m ∈ d) := by
  intro f now ts w env cfg lora minfo tinfo metrics gs ep cp src ib ov nv
  refine ⟨rfl, rfl, rfl, rfl, rfl, rfl, ?_, ?_, ?_⟩
  · intro m hm
    refine ⟨_, _, rfl, ?_, ?_⟩
    · show (write_jsonl f w.jsonl _).1 = w.jsonl
      rw [write_jsonl_fail hm]
    · show jsonl_error m ∈ (write_jsonl f w.jsonl _).2 ++ (write_csv f w.csv _).2 ++ _ ++ _
      rw [write_jsonl_fail hm]
      simp
  · intro m hm hwnone
    refine ⟨_, _, rfl, ?_⟩
    show csv_init_error m ∈ (write_jsonl f w.jsonl _).2 ++ (write_csv f w.csv _).2 ++ _ ++ _
    rw [write_csv_init_fail hm hwnone]
    simp
  · intro m hm henable hwriter
    refine ⟨_, _, rfl, ?_⟩
    show tb_error m ∈ (write_jsonl f w.jsonl _).2 ++ (write_csv f w.csv _).2
      ++ (if (true : Bool) ∧ w.enable_tensorboard then write_tensorboard f w.tb_writer _ else [])
      ++ _
    rw [if_pos ⟨rfl, henable⟩, hwriter, write_tensorboard_fail hm]
    simp

/-- Witness for C1: with a concrete oracle failing the JSONL append
and the TensorBoard write, a `log_step` against a run with the
TensorBoard integration enabled still returns normally, reporting both
failures as diagnostics. -/
theorem c1_witness :
    (log_step ⟨some "disk full", none, none, none, some "socket closed", none⟩ 0 "t"
        { initialWorld with enable_tensorboard := true, tb_writer := true }
        1 0 [] {}).isOk = true
    ∧ ∃ w2 d, log_step ⟨some "disk full", none, none, none, some "socket closed", none⟩ 0 "t"
        { initialWorld with enable_tensorboard := true, tb_writer := true }
        1 0 [] {} = .ok (w2, d)
      ∧ w2.jsonl = ({ initialWorld with enable_tensorboard := true, tb_writer := true } : World).jsonl
      ∧ jsonl_error "disk full" ∈ d := by
  refine ⟨?_, ?_⟩
  · exact (c1_log_calls_never_raise ⟨some "disk full", none, none, none, some "socket closed", none⟩
      0 "t" { initialWorld with enable_tensorboard := true, tb_writer := true }
      {} [] [] [] [] [] 1 0 "c" "s" false .null .null).2.1
  · exact (c1_log_calls_never_raise ⟨some "disk full", none, none, none, some "socket closed", none⟩
      0 "t" { initialWorld with enable_tensorboard := true, tb_writer := true }
      {} [] [] [] [] [] 1 0 "c" "s" false .null .null).2.2.2.2.2.2.1 "disk full" rfl

end AiToolkit
